import Mathlib

/-!
Verification of the multi-architecture manifest aggregator of atomic-reactor
(the `group_manifests` post-build stage) against its specification.

The development shallowly embeds:
* the mock v2 registry protocol state machine of
  `tests/plugins/test_group_manifests.py` (`MockRegistry`): repositories with
  content-addressed blob and manifest stores plus a tag map, and the
  state-changing operations `add_blob`, `add_manifest`, `_put_manifest`,
  `_mount_blob`;
* the aggregator (`GroupManifestsPlugin`) itself.  Its source file is not part
  of the repository snapshot, so it is modelled from the specification
  (collect sources, validate completeness per destination registry, grouping
  mode selection, per-destination replication, canonical manifest-list
  serialization) — each such definition is marked `Modelled from the spec:`.

Machine-level details (HTTP transport, TLS, credentials) carry no state
relevant to the claims and are omitted; JSON payloads are modelled by an
executable JSON value type with a serializer matching Python's `json.dumps`
conventions and an executable parser used for the mock registry's validity
check and for manifest parsing.
-/

namespace AtomicReactor

/-! ## JSON values and serialization

The registry stores byte payloads; the payloads of interest are JSON
documents.  `Json` models Python's JSON values as used by the code under
study (objects keep insertion order, as Python dicts do).  Floating point
literals do not occur in any payload of this system, so numbers are integers.
-/

inductive Json where
  | null : Json
  | bool : Bool → Json
  | num : Int → Json
  | str : String → Json
  | arr : List Json → Json
  | obj : List (String × Json) → Json

/-- Escape a character for a JSON string literal (quotes and backslashes;
the payloads of this system contain no control characters). -/
def escapeChar (c : Char) : List Char :=
  if c = '"' ∨ c = '\\' then ['\\', c] else [c]

/-- Serialize a string as a JSON string literal. -/
def quoteStr (s : String) : String :=
  "\"" ++ String.mk (s.data.map escapeChar).flatten ++ "\""

mutual
/-- Compact JSON serialization matching Python's `json.dumps` defaults:
separators `", "` and `": "`, object keys in insertion order. -/
def dumps : Json → String
  | .null => "null"
  | .bool true => "true"
  | .bool false => "false"
  | .num n => toString n
  | .str s => quoteStr s
  | .arr xs => "[" ++ dumpsArr xs ++ "]"
  | .obj kvs => "\x7b" ++ dumpsObj kvs ++ "\x7d"

def dumpsArr : List Json → String
  | [] => ""
  | [x] => dumps x
  | x :: y :: xs => dumps x ++ ", " ++ dumpsArr (y :: xs)

def dumpsObj : List (String × Json) → String
  | [] => ""
  | [(k, v)] => quoteStr k ++ ": " ++ dumps v
  | (k, v) :: kv :: kvs => quoteStr k ++ ": " ++ dumps v ++ ", " ++ dumpsObj (kv :: kvs)
end

/-- `n` copies of four spaces, the indentation unit of
`json.dumps(..., indent=4)`. -/
def indentSpaces : Nat → String
  | 0 => ""
  | n + 1 => "    " ++ indentSpaces n

mutual
/-- Indented JSON serialization matching Python's
`json.dumps(..., indent=4, separators=(",", ": "))`:
every container item on its own line, item separator `",\n"`,
key separator `": "`, empty containers rendered inline. -/
def dumpsInd : Nat → Json → String
  | _, .null => "null"
  | _, .bool true => "true"
  | _, .bool false => "false"
  | _, .num n => toString n
  | _, .str s => quoteStr s
  | _, .arr [] => "[]"
  | lvl, .arr (x :: xs) =>
      "[\n" ++ dumpsIndArr (lvl + 1) (x :: xs) ++ "\n" ++ indentSpaces lvl ++ "]"
  | _, .obj [] => "\x7b\x7d"
  | lvl, .obj (kv :: kvs) =>
      "\x7b\n" ++ dumpsIndObj (lvl + 1) (kv :: kvs) ++ "\n" ++ indentSpaces lvl ++ "\x7d"

def dumpsIndArr : Nat → List Json → String
  | _, [] => ""
  | lvl, [x] => indentSpaces lvl ++ dumpsInd lvl x
  | lvl, x :: y :: xs =>
      indentSpaces lvl ++ dumpsInd lvl x ++ ",\n" ++ dumpsIndArr lvl (y :: xs)

def dumpsIndObj : Nat → List (String × Json) → String
  | _, [] => ""
  | lvl, [(k, v)] => indentSpaces lvl ++ quoteStr k ++ ": " ++ dumpsInd lvl v
  | lvl, (k, v) :: kv :: kvs =>
      indentSpaces lvl ++ quoteStr k ++ ": " ++ dumpsInd lvl v ++ ",\n" ++
        dumpsIndObj lvl (kv :: kvs)
end

/-- Insert into a list sorted ascending on a `String` key. -/
def insertOn {α : Type} (key : α → String) (x : α) : List α → List α
  | [] => [x]
  | y :: ys => if key x ≤ key y then x :: y :: ys else y :: insertOn key x ys

/-- Insertion sort, ascending on a `String` key.  This is the deterministic
ordering Python's `sorted` produces for ASCII keys. -/
def sortOn {α : Type} (key : α → String) : List α → List α
  | [] => []
  | x :: xs => insertOn key x (sortOn key xs)

mutual
/-- Recursively sort all object keys, the effect of `sort_keys=True`. -/
def sortKeys : Json → Json
  | .arr xs => .arr (sortKeysArr xs)
  | .obj kvs => .obj (sortOn Prod.fst (sortKeysObj kvs))
  | j => j

def sortKeysArr : List Json → List Json
  | [] => []
  | x :: xs => sortKeys x :: sortKeysArr xs

def sortKeysObj : List (String × Json) → List (String × Json)
  | [] => []
  | (k, v) :: kvs => (k, sortKeys v) :: sortKeysObj kvs
end

/-- The canonical serialization the aggregator uses for manifest lists:
`json.dumps(manifest_list, indent=4, sort_keys=True, separators=(",", ": "))`
(seen byte-for-byte in the test's re-serialization check). -/
def dumpsCanonical (j : Json) : String :=
  dumpsInd 0 (sortKeys j)

/-! ## JSON parsing

An executable recursive-descent parser, modelling `json.loads` on the
payloads of this system (null, booleans, integers, strings with quote and
backslash escapes, arrays, objects).  It is used for the mock registry's
`_put_manifest` validity check and for manifest parsing; the claims under
study depend on it only through evaluation on concrete payloads and through
the case structure of the functions that call it. -/

/-- Skip JSON whitespace. -/
def skipWs : List Char → List Char
  | c :: cs => if c = ' ' ∨ c = '\n' ∨ c = '\t' ∨ c = '\r' then skipWs cs else c :: cs
  | [] => []

/-- Parse the body of a JSON string literal (after the opening quote),
returning the decoded characters and the rest of the input. -/
def parseStrBody : List Char → Option (List Char × List Char)
  | '"' :: rest => some ([], rest)
  | '\\' :: c :: rest =>
      let dec : Option Char :=
        if c = '"' then some '"'
        else if c = '\\' then some '\\'
        else if c = '/' then some '/'
        else if c = 'n' then some '\n'
        else if c = 't' then some '\t'
        else if c = 'r' then some '\r'
        else none
      match dec with
      | none => none
      | some d =>
        match parseStrBody rest with
        | none => none
        | some (s, rem) => some (d :: s, rem)
  | '\\' :: [] => none
  | c :: rest =>
      match parseStrBody rest with
      | none => none
      | some (s, rem) => some (c :: s, rem)
  | [] => none

/-- Parse a run of decimal digits. -/
def parseDigits : List Char → List Char × List Char
  | c :: cs =>
      if c.isDigit then
        let (ds, rem) := parseDigits cs
        (c :: ds, rem)
      else ([], c :: cs)
  | [] => ([], [])

/-- Numeric value of a digit run. -/
def digitsVal (ds : List Char) : Nat :=
  ds.foldl (fun a c => a * 10 + (c.toNat - '0'.toNat)) 0

/-- Match a literal keyword at the head of the input. -/
def eatKeyword (kw : List Char) (cs : List Char) : Option (List Char) :=
  if kw.isPrefixOf cs then some (cs.drop kw.length) else none

mutual
/-- Parse one JSON value.  `fuel` bounds nesting; every recursive call
consumes at least one input character, so `input length + 1` fuel always
suffices. -/
def parseVal (fuel : Nat) (cs : List Char) : Option (Json × List Char) :=
  match fuel with
  | 0 => none
  | f + 1 =>
    match skipWs cs with
    | '"' :: rest =>
        match parseStrBody rest with
        | some (s, rem) => some (.str (String.mk s), rem)
        | none => none
    | '[' :: rest =>
        match skipWs rest with
        | ']' :: rem => some (.arr [], rem)
        | rest' =>
            match parseArrItems f rest' with
            | some (xs, rem) => some (.arr xs, rem)
            | none => none
    | '\x7b' :: rest =>
        match skipWs rest with
        | '\x7d' :: rem => some (.obj [], rem)
        | rest' =>
            match parseObjItems f rest' with
            | some (kvs, rem) => some (.obj kvs, rem)
            | none => none
    | '-' :: rest =>
        match parseDigits rest with
        | ([], _) => none
        | (ds, rem) => some (.num (-(digitsVal ds : Int)), rem)
    | c :: rest =>
        if c.isDigit then
          match parseDigits (c :: rest) with
          | (ds, rem) => some (.num (digitsVal ds : Int), rem)
        else
          match eatKeyword ['n', 'u', 'l', 'l'] (c :: rest) with
          | some rem => some (.null, rem)
          | none =>
            match eatKeyword ['t', 'r', 'u', 'e'] (c :: rest) with
            | some rem => some (.bool true, rem)
            | none =>
              match eatKeyword ['f', 'a', 'l', 's', 'e'] (c :: rest) with
              | some rem => some (.bool false, rem)
              | none => none
    | [] => none

/-- Parse the comma-separated items of a non-empty array, including the
closing bracket. -/
def parseArrItems (fuel : Nat) (cs : List Char) : Option (List Json × List Char) :=
  match fuel with
  | 0 => none
  | f + 1 =>
    match parseVal f cs with
    | none => none
    | some (x, rem) =>
      match skipWs rem with
      | ']' :: rem' => some ([x], rem')
      | ',' :: rem' =>
          match parseArrItems f rem' with
          | some (xs, rem'') => some (x :: xs, rem'')
          | none => none
      | _ => none

/-- Parse the comma-separated members of a non-empty object, including the
closing brace. -/
def parseObjItems (fuel : Nat) (cs : List Char) : Option (List (String × Json) × List Char) :=
  match fuel with
  | 0 => none
  | f + 1 =>
    match skipWs cs with
    | '"' :: rest =>
      match parseStrBody rest with
      | none => none
      | some (k, rem) =>
        match skipWs rem with
        | ':' :: rem' =>
          match parseVal f rem' with
          | none => none
          | some (v, rem'') =>
            match skipWs rem'' with
            | '\x7d' :: rem''' => some ([(String.mk k, v)], rem''')
            | ',' :: rem''' =>
                match parseObjItems f rem''' with
                | some (kvs, rem'''') => some ((String.mk k, v) :: kvs, rem'''')
                | none => none
            | _ => none
        | _ => none
    | _ => none
end

/-- Model of `json.loads` as a validity-checked parse: the whole input must
be one JSON document (possibly surrounded by whitespace). -/
def loads (s : String) : Option Json :=
  match parseVal (s.length + 2) s.data with
  | some (j, rest) => if skipWs rest = [] then some j else none
  | none => none

/-- A payload is valid JSON exactly when `json.loads` accepts it. -/
def isValidJson (s : String) : Bool :=
  (loads s).isSome

/-! ## Content digests

`make_digest` in the test module is
`partial(sha256sum, abbrev_len=10, prefix=True)`.
-/

/-- Modelled from the spec: `sha256sum` (in `atomic_reactor.util`, not part
of the repository snapshot) computes a content hash over the byte-exact
payload, prefixed with the algorithm, and serves as the canonical identity
of a manifest or blob ("computed, never assigned").  The two properties of
the hash this development relies on are determinism and collision-freedom,
so it is modelled as an idealized collision-free content hash: the
injective identity encoding of the payload under the `sha256:` prefix. -/
def make_digest (s : String) : String :=
  "sha256:" ++ s

/-- Digest references are recognized by their algorithm prefix, as in
`ref.startswith("sha256:")` throughout the test module. -/
def isDigestRef (ref : String) : Bool :=
  "sha256:".data.isPrefixOf ref.data

/-! ## The registry state machine (`MockRegistry`)

One repository holds three key-value stores, exactly the
`{"blobs": {}, "manifests": {}, "tags": {}}` dictionaries of
`MockRegistry.get_repo`.  Stores are total functions returning `Option`,
which also models `get_repo`'s `setdefault` (an absent repository behaves
as an empty one). -/

/-- A key-value store of a repository (payloads keyed by digest, or digests
keyed by tag). -/
def Store : Type := String → Option String

/-- Update one key of a store. -/
def updStore (s : Store) (k v : String) : Store :=
  fun k' => if k' = k then some v else s k'

/-- One repository of a registry. -/
structure Repo where
  blobs : Store
  manifests : Store
  tags : Store

/-- A registry: repositories keyed by name. -/
def Registry : Type := String → Repo

/-- The repository with empty stores (what `get_repo` creates on demand). -/
def emptyRepo : Repo :=
  ⟨fun _ => none, fun _ => none, fun _ => none⟩

/-- A freshly constructed `MockRegistry`: `self.repos = {}`. -/
def emptyRegistry : Registry :=
  fun _ => emptyRepo

/-- Replace the blob store entry `d ↦ b` of repository `name`. -/
def setBlob (reg : Registry) (name d b : String) : Registry :=
  fun n => if n = name then { reg n with blobs := updStore (reg n).blobs d b } else reg n

/-- Replace the manifest store entry `d ↦ m` of repository `name`. -/
def setManifest (reg : Registry) (name d m : String) : Registry :=
  fun n => if n = name then { reg n with manifests := updStore (reg n).manifests d m } else reg n

/-- Replace the tag entry `t ↦ d` of repository `name`. -/
def setTag (reg : Registry) (name t d : String) : Registry :=
  fun n => if n = name then { reg n with tags := updStore (reg n).tags t d } else reg n

/-- `MockRegistry.add_blob`: store a blob under its computed digest and
return the digest. -/
def add_blob (reg : Registry) (name blob : String) : Registry × String :=
  let digest := make_digest blob
  (setBlob reg name digest blob, digest)

/-- `MockRegistry.add_manifest`: store the manifest under its computed
digest; then either check a digest reference against the computed digest
(Python's `assert ref == digest` — the returned flag is `false` when that
assertion fires, with the manifest already stored, exactly as in the
Python control flow) or bind the tag. -/
def add_manifest (reg : Registry) (name ref manifest : String) :
    Registry × String × Bool :=
  let digest := make_digest manifest
  let reg1 := setManifest reg name digest manifest
  if isDigestRef ref then
    (reg1, digest, ref = digest)
  else
    (setTag reg1 name ref digest, digest, true)

/-- `MockRegistry.get_manifest`: resolve a tag via the tag map if the
reference is not a digest, then read the manifest store (`KeyError`s become
`none`). -/
def get_manifest (reg : Registry) (name ref : String) : Option String :=
  if isDigestRef ref then
    (reg name).manifests ref
  else
    match (reg name).tags ref with
    | some d => (reg name).manifests d
    | none => none

/-- `MockRegistry.get_blob`: read the blob store. -/
def get_blob (reg : Registry) (name digest : String) : Option String :=
  (reg name).blobs digest

/-- `MockRegistry._put_manifest`: reject a body that is not valid JSON with
status 400, leaving the state unchanged; otherwise store via `add_manifest`
(status 200).  A `none` status models the propagated `AssertionError` of a
digest-addressed PUT whose reference does not match the body's digest; the
manifest store is mutated before that assertion fires, as in the Python. -/
def put_manifest (reg : Registry) (name ref body : String) :
    Option Nat × Registry :=
  if isValidJson body then
    match add_manifest reg name ref body with
    | (reg1, _, ok) => (if ok then some 200 else none, reg1)
  else
    (some 400, reg)

/-- `MockRegistry._mount_blob`: link a blob from a source repository into a
target repository of the same registry; status 201 when the source has the
blob, 202 (state unchanged — the Python `KeyError` fires before the
assignment) when it does not. -/
def mount_blob (reg : Registry) (targetName digest sourceName : String) :
    Nat × Registry :=
  match (reg sourceName).blobs digest with
  | some b => (201, setBlob reg targetName digest b)
  | none => (202, reg)

/-- States of one registry reachable from a fresh `MockRegistry` by the
state-changing operations of the mock protocol. -/
inductive Reach : Registry → Prop where
  | init : Reach emptyRegistry
  | addBlob {reg} (name blob : String) : Reach reg → Reach (add_blob reg name blob).1
  | addManifest {reg} (name ref manifest : String) :
      Reach reg → Reach (add_manifest reg name ref manifest).1
  | putManifest {reg} (name ref body : String) :
      Reach reg → Reach (put_manifest reg name ref body).2
  | mountBlob {reg} (target digest source : String) :
      Reach reg → Reach (mount_blob reg target digest source).2

/-- A store is content-addressed: every key is the digest of the payload
stored under it. -/
def StoreHashed (s : Store) : Prop :=
  ∀ d v, s d = some v → make_digest v = d

/-- The registry-state invariant: blob and manifest stores are
content-addressed and every tag points at a stored manifest. -/
def RepoConsistent (r : Repo) : Prop :=
  StoreHashed r.blobs ∧ StoreHashed r.manifests ∧
    ∀ t d, r.tags t = some d → ∃ m, r.manifests d = some m

/-- All repositories of a registry satisfy the invariant. -/
def RegConsistent (reg : Registry) : Prop :=
  ∀ n, RepoConsistent (reg n)

/-! ## Manifests

The structured view of a platform-specific image manifest, with exactly the
fields the aggregator reads: schema version, media type, config blob
reference, layer blob references (a layer may carry external URLs).
-/

/-- A config blob reference inside a manifest. -/
structure BlobRef where
  mediaType : String
  digest : String
deriving DecidableEq

/-- A layer blob reference inside a manifest. -/
structure LayerRef where
  mediaType : String
  digest : String
  urls : List String
deriving DecidableEq

/-- A parsed platform-specific image manifest. -/
structure Manifest where
  schemaVersion : Int
  mediaType : String
  config : BlobRef
  layers : List LayerRef
deriving DecidableEq

/-- Object member lookup. -/
def jGet (j : Json) (k : String) : Option Json :=
  match j with
  | .obj kvs => kvs.lookup k
  | _ => none

/-- Extract a JSON string. -/
def jStr : Json → Option String
  | .str s => some s
  | _ => none

/-- Extract a JSON integer. -/
def jInt : Json → Option Int
  | .num n => some n
  | _ => none

/-- Extract a JSON array. -/
def jArr : Json → Option (List Json)
  | .arr xs => some xs
  | _ => none

/-- Parse a config blob reference. -/
def parseBlobRef (j : Json) : Option BlobRef :=
  match jGet j "mediaType" with
  | none => none
  | some mtj =>
    match jStr mtj with
    | none => none
    | some mt =>
      match jGet j "digest" with
      | none => none
      | some dj =>
        match jStr dj with
        | none => none
        | some d => some ⟨mt, d⟩

/-- Parse a layer reference; `urls` is optional and defaults to empty. -/
def parseLayerRef (j : Json) : Option LayerRef :=
  match parseBlobRef j with
  | none => none
  | some br =>
    let urls :=
      match jGet j "urls" with
      | some (.arr us) => us.filterMap jStr
      | _ => []
    some ⟨br.mediaType, br.digest, urls⟩

/-- Modelled from the spec: `parseManifest(bytes)` of the Digest/Content
Model — parse the JSON document into
`{schemaVersion, mediaType, config, layers[]}`; malformed JSON yields no
result (fatal `MalformedManifestError` at the call site). -/
def parse_manifest (s : String) : Option Manifest :=
  match loads s with
  | none => none
  | some j =>
    match jGet j "schemaVersion" with
    | none => none
    | some svj =>
      match jInt svj with
      | none => none
      | some sv =>
        match jGet j "mediaType" with
        | none => none
        | some mtj =>
          match jStr mtj with
          | none => none
          | some mt =>
            match jGet j "config" with
            | none => none
            | some cj =>
              match parseBlobRef cj with
              | none => none
              | some cfg =>
                match jGet j "layers" with
                | none => none
                | some lj =>
                  match jArr lj with
                  | none => none
                  | some ls =>
                    match ls.mapM parseLayerRef with
                    | none => none
                    | some layers => some ⟨sv, mt, cfg, layers⟩

/-- The non-distributable layer media types of both image-spec families,
as used for the foreign layers constructed in the test module. -/
def foreign_layer_types : List String :=
  ["application/vnd.docker.image.rootfs.foreign.diff.tar.gzip",
   "application/vnd.oci.image.layer.nondistributable.v1.tar"]

/-- Modelled from the spec: `isForeignLayer(layer)` — a layer flagged
foreign (non-distributable, accompanied by external URLs) is recognized by
its media type. -/
def is_foreign_layer (l : LayerRef) : Bool :=
  foreign_layer_types.contains l.mediaType

/-- The two supported image-spec families. -/
inductive Family where
  | docker : Family
  | oci : Family
deriving DecidableEq

/-- The image-spec family of a platform-manifest media type;
`none` for an unrecognized media type. -/
def manifest_family (mt : String) : Option Family :=
  if mt = "application/vnd.docker.distribution.manifest.v2+json" then some .docker
  else if mt = "application/vnd.oci.image.manifest.v1+json" then some .oci
  else none

/-- The manifest-list media type of each family (Docker manifest list,
OCI image index). -/
def list_media_type : Family → String
  | .docker => "application/vnd.docker.distribution.manifest.list.v2+json"
  | .oci => "application/vnd.oci.image.index.v1+json"

/-! ## The aggregator

`GroupManifestsPlugin` is not part of the repository snapshot; every
definition below is modelled from the specification's Aggregator design
(collect sources, validate completeness per destination registry, grouping
mode selection, per-destination replication, canonical list serialization)
and from the behaviour the test module pins down. -/

/-- A Source Location: where a previously-built single-platform image
lives — one entry of a worker build's `digests` list
(registry, repository, tag, digest, schema version). -/
structure SourceLoc where
  registry : String
  repository : String
  tag : String
  digest : String
  version : String
deriving DecidableEq

/-- A destination registry's configuration entry (endpoint name and
registry API version; credentials and TLS flags carry no state relevant
here). -/
structure RegistryConf where
  name : String
  version : String
deriving DecidableEq

/-- The aggregator's input: worker builds (one platform with its Source
Locations per entry), destination registries, final (repository, tag)
pairs to publish, the grouping flag, and the platform → architecture
table. -/
structure AggInput where
  workerBuilds : List (String × List SourceLoc)
  registries : List RegistryConf
  finalTags : List (String × String)
  group : Bool
  goarch : List (String × String)
deriving DecidableEq

/-- The fatal conditions of the aggregator. -/
inductive AggError where
  | noWorkerBuilds : AggError
  | missingPlatforms : String → List String → AggError
  | ambiguousUngroupedSource : AggError
  | manifestNotFound : String → String → AggError
  | digestMismatch : String → String → AggError
  | malformedManifest : String → String → AggError
  | mixedMediaFamilies : AggError
  | unknownPlatform : String → AggError
  | blobNotFound : String → String → AggError
  | putFailed : String → String → AggError
deriving DecidableEq

/-- One per-platform entry of a manifest list under construction. -/
structure ListEntry where
  mediaType : String
  digest : String
  size : Int
  os : String
  architecture : String
deriving DecidableEq

/-- What was finally published under a tag: digest, media type and raw
bytes (the Aggregation Result). -/
structure PubArtifact where
  digest : String
  mediaType : String
  bytes : String
deriving DecidableEq

/-- The collection of per-host registry states the aggregator works
against. -/
def Regs : Type := String → Registry

/-- Update the state of one registry host. -/
def updateRegs (regs : Regs) (name : String) (reg : Registry) : Regs :=
  fun r => if r = name then reg else regs r

/-- Modelled from the spec: select the Source Location of one platform
usable for a destination registry — a worker-build record on that registry
whose schema version is usable as a manifest-list source (v1 records are
not). -/
def find_source (conf : RegistryConf) (locs : List SourceLoc) : Option SourceLoc :=
  locs.find? fun l => l.registry = conf.name ∧ l.version ≠ "v1"

/-- The platforms having no usable Source Location for a registry. -/
def missing_platforms (conf : RegistryConf) (wbs : List (String × List SourceLoc)) :
    List String :=
  (wbs.filter fun pb => (find_source conf pb.2).isNone).map Prod.fst

/-- The (platform, Source Location) pairs resolved for a registry. -/
def registry_sources (conf : RegistryConf) (wbs : List (String × List SourceLoc)) :
    List (String × SourceLoc) :=
  wbs.filterMap fun pb => (find_source conf pb.2).map fun l => (pb.1, l)

/-- Modelled from the spec: step 2 of the Aggregator — validate completeness
per destination registry before writing; a registry missing any required
platform aborts the run with `MissingPlatformsError` naming the registry and
the missing set. -/
def resolve_sources (confs : List RegistryConf) (wbs : List (String × List SourceLoc)) :
    Except AggError (List (RegistryConf × List (String × SourceLoc))) :=
  match confs with
  | [] => .ok []
  | conf :: rest =>
    if missing_platforms conf wbs = [] then
      match resolve_sources rest wbs with
      | .error e => .error e
      | .ok out => .ok ((conf, registry_sources conf wbs) :: out)
    else
      .error (.missingPlatforms conf.name (missing_platforms conf wbs))

/-- Modelled from the spec: `getManifest(ref)` of the Registry Client —
when `ref` is a digest, the returned content is re-hashed and checked
against it; a mismatch is `DigestMismatchError`. -/
def client_get_manifest (reg : Registry) (repo ref : String) :
    Except AggError String :=
  match get_manifest reg repo ref with
  | none => .error (.manifestNotFound repo ref)
  | some bytes =>
    if isDigestRef ref ∧ make_digest bytes ≠ ref then
      .error (.digestMismatch repo ref)
    else
      .ok bytes

/-- Modelled from the spec: copy one blob between repositories of a
registry — attempt `mountBlob` (zero-copy link), and on mount failure fall
back to `getBlob` from the source repository followed by `putBlob` into the
destination. -/
def copy_blob (reg : Registry) (srcRepo dstRepo d : String) :
    Except AggError Registry :=
  let mres := mount_blob reg dstRepo d srcRepo
  if mres.1 = 201 then .ok mres.2
  else
    match get_blob reg srcRepo d with
    | some b => .ok (setBlob reg dstRepo d b)
    | none => .error (.blobNotFound srcRepo d)

/-- The blob digests a manifest requires the aggregator to copy: the config
blob and every non-foreign layer (foreign layers are never copied). -/
def copied_digests (m : Manifest) : List String :=
  m.config.digest :: (m.layers.filter fun l => ¬ is_foreign_layer l).map LayerRef.digest

/-- Copy each blob digest of a list in turn. -/
def copy_blob_list (srcRepo dstRepo : String) :
    List String → Registry → Except AggError Registry
  | [], r => .ok r
  | d :: ds, r =>
    match copy_blob r srcRepo dstRepo d with
    | .error e => .error e
    | .ok r' => copy_blob_list srcRepo dstRepo ds r'

/-- Copy the config blob and all non-foreign layer blobs of a manifest. -/
def copy_blobs (reg : Registry) (srcRepo dstRepo : String) (m : Manifest) :
    Except AggError Registry :=
  copy_blob_list srcRepo dstRepo (copied_digests m) reg

/-- Modelled from the spec: step 4a–b of the Aggregator for one platform —
fetch the manifest from its Source Location (digest-verified), parse it,
check its media type is recognized, copy config and non-foreign layer
blobs, store the manifest in the destination repository addressed by its
own digest, and resolve the platform to `{os, architecture}` (fixed OS
value `linux` with the configured architecture, `UnknownPlatformError`
when unmapped).  Returns the evolved registry, the manifest bytes, and the
accumulated list entry `{mediaType, digest, size, platform}`. -/
def replicate_platform (goarch : List (String × String)) (reg : Registry)
    (dstRepo p : String) (loc : SourceLoc) :
    Except AggError (Registry × String × ListEntry) :=
  match client_get_manifest reg loc.repository loc.digest with
  | .error e => .error e
  | .ok bytes =>
    match parse_manifest bytes with
    | none => .error (.malformedManifest loc.repository loc.digest)
    | some m =>
      match manifest_family m.mediaType with
      | none => .error (.malformedManifest loc.repository loc.digest)
      | some _ =>
        match copy_blobs reg loc.repository dstRepo m with
        | .error e => .error e
        | .ok reg1 =>
          let reg2 := (add_manifest reg1 dstRepo (make_digest bytes) bytes).1
          match goarch.lookup p with
          | none => .error (.unknownPlatform p)
          | some arch =>
            .ok (reg2, bytes, ⟨m.mediaType, make_digest bytes, Int.ofNat bytes.length,
              "linux", arch⟩)

/-- Replicate every platform for one destination repository, accumulating
the manifest-list entries in worker-build order. -/
def collect_platforms (goarch : List (String × String)) (dstRepo : String) :
    List (String × SourceLoc) → Registry → Except AggError (Registry × List ListEntry)
  | [], reg => .ok (reg, [])
  | (p, loc) :: rest, reg =>
    match replicate_platform goarch reg dstRepo p loc with
    | .error e => .error e
    | .ok (reg1, _, e) =>
      match collect_platforms goarch dstRepo rest reg1 with
      | .error e2 => .error e2
      | .ok (reg2, es) => .ok (reg2, e :: es)

/-- The common image-spec family of the accumulated entries; `none` when
the media types are unrecognized or belong to different families (mixed
families are not translated). -/
def common_family : List ListEntry → Option Family
  | [] => none
  | e :: es =>
    match manifest_family e.mediaType with
    | none => none
    | some f =>
      if es.all fun e' => manifest_family e'.mediaType = some f then some f
      else none

/-- The JSON document of one manifest-list entry. -/
def entryJson (e : ListEntry) : Json :=
  .obj [("mediaType", .str e.mediaType), ("digest", .str e.digest),
        ("size", .num e.size),
        ("platform", .obj [("os", .str e.os), ("architecture", .str e.architecture)])]

/-- The JSON document of a manifest list. -/
def manifest_list_json (listType : String) (entries : List ListEntry) : Json :=
  .obj [("schemaVersion", .num 2), ("mediaType", .str listType),
        ("manifests", .arr (entries.map entryJson))]

/-- The canonical bytes of a manifest list: entries sorted ascending by
architecture name, serialized canonically (stable key order). -/
def build_list_bytes (listType : String) (entries : List ListEntry) : String :=
  dumpsCanonical (manifest_list_json listType (sortOn ListEntry.architecture entries))

/-- Modelled from the spec: step 4c of the Aggregator for one destination
tag — replicate all platforms, check media-type-family consistency,
canonically serialize the manifest list and publish it under the final
tag. -/
def publish_grouped (goarch : List (String × String))
    (sources : List (String × SourceLoc)) (reg : Registry) (repo tag : String) :
    Except AggError (Registry × PubArtifact) :=
  match collect_platforms goarch repo sources reg with
  | .error e => .error e
  | .ok (reg1, entries) =>
    match common_family entries with
    | none => .error .mixedMediaFamilies
    | some fam =>
      let bytes := build_list_bytes (list_media_type fam) entries
      match add_manifest reg1 repo tag bytes with
      | (reg2, d, ok) =>
        if ok then .ok (reg2, ⟨d, list_media_type fam, bytes⟩)
        else .error (.putFailed repo tag)

/-- Modelled from the spec: step 4d of the Aggregator — with grouping
disabled, replicate the single platform and publish its manifest bytes
directly under the final tag. -/
def publish_single (goarch : List (String × String)) (p : String) (loc : SourceLoc)
    (reg : Registry) (repo tag : String) : Except AggError (Registry × PubArtifact) :=
  match replicate_platform goarch reg repo p loc with
  | .error e => .error e
  | .ok (reg1, bytes, e) =>
    match add_manifest reg1 repo tag bytes with
    | (reg2, d, ok) =>
      if ok then .ok (reg2, ⟨d, e.mediaType, bytes⟩)
      else .error (.putFailed repo tag)

/-- Publish every final (repository, tag) pair at one destination registry,
keeping the first artifact as the Aggregation Result. -/
def publish_tags (goarch : List (String × String)) (group : Bool)
    (sources : List (String × SourceLoc)) :
    List (String × String) → Registry → Option PubArtifact →
    Except AggError (Registry × Option PubArtifact)
  | [], reg, art => .ok (reg, art)
  | (repo, tag) :: rest, reg, art =>
    let pub :=
      if group then publish_grouped goarch sources reg repo tag
      else
        match sources with
        | [(p, loc)] => publish_single goarch p loc reg repo tag
        | _ => .error .ambiguousUngroupedSource
    match pub with
    | .error e => .error e
    | .ok (reg1, a) => publish_tags goarch group sources rest reg1 (art <|> some a)

/-- Run the per-destination replication across all destination registries.
A fatal condition aborts the run, keeping the states already written. -/
def run_dests (goarch : List (String × String)) (group : Bool)
    (tags : List (String × String)) :
    List (RegistryConf × List (String × SourceLoc)) → Regs → Option PubArtifact →
    Regs × Except AggError (Option PubArtifact)
  | [], regs, art => (regs, .ok art)
  | (conf, sources) :: rest, regs, art =>
    match publish_tags goarch group sources tags (regs conf.name) none with
    | .error e => (regs, .error e)
    | .ok (reg', a) => run_dests goarch group tags rest (updateRegs regs conf.name reg') (art <|> a)

/-- Modelled from the spec: the Aggregator state machine per invocation —
collect sources (`NoWorkerBuildsError` when there are none), validate
completeness per destination registry (`MissingPlatformsError`), select the
grouping mode (`AmbiguousUngroupedSourceError` when grouping is disabled
with more than one platform), then replicate and publish per destination.
Returns the final registry states and the Aggregation Result of the primary
destination (or the fatal condition; validation failures leave every
registry untouched). -/
def run_group_manifests (inp : AggInput) (regs : Regs) :
    Regs × Except AggError (Option PubArtifact) :=
  if inp.workerBuilds.isEmpty then
    (regs, .error .noWorkerBuilds)
  else
    match resolve_sources inp.registries inp.workerBuilds with
    | .error e => (regs, .error e)
    | .ok perReg =>
      if inp.group = false ∧ 1 < inp.workerBuilds.length then
        (regs, .error .ambiguousUngroupedSource)
      else
        run_dests inp.goarch inp.group inp.finalTags perReg regs none

/-! ## A concrete scenario

A small fixture mirroring the test module's setup: two platforms built and
pushed (with a foreign layer each) to the `src` repository of one registry,
to be grouped under two final tags of the `r` repository. -/

/-- A platform-specific source manifest (Docker family, one ordinary layer
and one foreign layer). -/
def wMan (p : String) : Json :=
  .obj [("schemaVersion", .num 2),
        ("mediaType", .str "application/vnd.docker.distribution.manifest.v2+json"),
        ("config", .obj [("mediaType", .str "c"),
                         ("digest", .str (make_digest ("c-" ++ p)))]),
        ("layers", .arr [
          .obj [("mediaType", .str "l"),
                ("digest", .str (make_digest ("l-" ++ p)))],
          .obj [("mediaType", .str "application/vnd.docker.image.rootfs.foreign.diff.tar.gzip"),
                ("digest", .str (make_digest ("f-" ++ p))),
                ("urls", .arr [.str "u"])]])]

/-- The serialized bytes of a source manifest (as the workers push them). -/
def wBytes (p : String) : String := dumps (wMan p)

/-- The structured view of a source manifest. -/
def wParsed (p : String) : Manifest :=
  ⟨2, "application/vnd.docker.distribution.manifest.v2+json",
    ⟨"c", make_digest ("c-" ++ p)⟩,
    [⟨"l", make_digest ("l-" ++ p), []⟩,
     ⟨"application/vnd.docker.image.rootfs.foreign.diff.tar.gzip",
       make_digest ("f-" ++ p), ["u"]⟩]⟩

/-- The source registry state: blobs and manifests of both platforms
prefilled in repository `src`. -/
def wReg : Registry :=
  (add_manifest
    (add_manifest
      (add_blob (add_blob
        (add_blob (add_blob emptyRegistry "src" "l-p1").1 "src" "c-p1").1
        "src" "l-p2").1 "src" "c-p2").1
      "src" (make_digest (wBytes "p1")) (wBytes "p1")).1
    "src" (make_digest (wBytes "p2")) (wBytes "p2")).1

/-- The registry map: one populated registry host `reg`. -/
def wRegs : Regs := updateRegs (fun _ => emptyRegistry) "reg" wReg

/-- The worker-build record of one platform. -/
def wLoc (p : String) : SourceLoc :=
  ⟨"reg", "src", "t-" ++ p, make_digest (wBytes p), "v2"⟩

/-- The aggregator input of the scenario: two platforms, one destination
registry, two final tags, grouping enabled. -/
def wInp : AggInput :=
  ⟨[("p1", [wLoc "p1"]), ("p2", [wLoc "p2"])], [⟨"reg", "v2"⟩],
   [("r", "t1"), ("r", "t2")], true, [("p1", "amd64"), ("p2", "powerpc")]⟩

/-! ## Predicates used by the statements -/

/-- Did source resolution (the completeness validation) succeed? -/
def sources_resolve (inp : AggInput) : Bool :=
  match resolve_sources inp.registries inp.workerBuilds with
  | .ok _ => true
  | .error _ => false

/-- Did the whole run succeed? -/
def run_ok (inp : AggInput) (regs : Regs) : Bool :=
  match (run_group_manifests inp regs).2 with
  | .ok _ => true
  | .error _ => false

/-- All registry hosts satisfy the registry-state invariant. -/
def RegsConsistent (regs : Regs) : Prop :=
  ∀ r, RegConsistent (regs r)

/-- `b` preserves every manifest-store entry of `a`. -/
def ManMono (a b : Registry) : Prop :=
  ∀ n d v, (a n).manifests d = some v → (b n).manifests d = some v

/-- `b` preserves every blob-store entry of `a`. -/
def BlobMono (a b : Registry) : Prop :=
  ∀ n d v, (a n).blobs d = some v → (b n).blobs d = some v

/-- The tag maps of `a` and `b` agree everywhere. -/
def TagsEq (a b : Registry) : Prop :=
  ∀ n, (b n).tags = (a n).tags

/-- The manifest-list entry a source location is expected to contribute,
read off a registry state: the stored source manifest's media type, its
digest, its byte size, and the resolved `{os, architecture}` platform. -/
def expected_entry (reg : Registry) (goarch : List (String × String))
    (p : String) (loc : SourceLoc) : Option ListEntry :=
  match (reg loc.repository).manifests loc.digest with
  | none => none
  | some bytes =>
    match parse_manifest bytes, goarch.lookup p with
    | some m, some arch =>
        some ⟨m.mediaType, make_digest bytes, Int.ofNat bytes.length, "linux", arch⟩
    | _, _ => none

/-- Every resolved source is digest-addressed and its manifest is stored at
its source location. -/
def sources_ok_b (reg : Registry) (sources : List (String × SourceLoc)) : Bool :=
  sources.all fun ps =>
    isDigestRef ps.2.digest && ((reg ps.2.repository).manifests ps.2.digest).isSome

/-- `sources_ok_b` for every destination registry of a run. -/
def all_sources_ok_b (inp : AggInput) (regs : Regs) : Bool :=
  inp.registries.all fun conf =>
    sources_ok_b (regs conf.name) (registry_sources conf inp.workerBuilds)

/-- Two collections of registry states hold byte-identical source manifests
at every resolved source location of a run. -/
def sources_agree_b (inp : AggInput) (regs1 regs2 : Regs) : Bool :=
  inp.registries.all fun conf =>
    (registry_sources conf inp.workerBuilds).all fun ps =>
      ((regs1 conf.name) ps.2.repository).manifests ps.2.digest
        == ((regs2 conf.name) ps.2.repository).manifests ps.2.digest

/-- A digest is not among the blob digests (config or non-foreign layer)
any source manifest of the run asks the aggregator to copy. -/
def digest_not_copied_b (inp : AggInput) (regs : Regs) (dg : String) : Bool :=
  inp.registries.all fun conf =>
    (registry_sources conf inp.workerBuilds).all fun ps =>
      match ((regs conf.name) ps.2.repository).manifests ps.2.digest with
      | none => true
      | some b =>
        match parse_manifest b with
        | none => true
        | some m => decide (dg ∉ copied_digests m)

theorem updStore_same (s : Store) (k v : String) : updStore s k v k = some v := by
  simp [updStore]

theorem updStore_other (s : Store) {k k' : String} (v : String) (h : k' ≠ k) :
    updStore s k v k' = s k' := by
  simp [updStore, h]

theorem setBlob_eq (reg : Registry) (name d b : String) :
    (setBlob reg name d b) name = { reg name with blobs := updStore (reg name).blobs d b } := by
  simp [setBlob]

theorem setBlob_ne (reg : Registry) {name n : String} (d b : String) (h : n ≠ name) :
    (setBlob reg name d b) n = reg n := by
  simp [setBlob, h]

theorem setManifest_eq (reg : Registry) (name d m : String) :
    (setManifest reg name d m) name
      = { reg name with manifests := updStore (reg name).manifests d m } := by
  simp [setManifest]

theorem setManifest_ne (reg : Registry) {name n : String} (d m : String) (h : n ≠ name) :
    (setManifest reg name d m) n = reg n := by
  simp [setManifest, h]

theorem setTag_eq (reg : Registry) (name t d : String) :
    (setTag reg name t d) name = { reg name with tags := updStore (reg name).tags t d } := by
  simp [setTag]

theorem setTag_ne (reg : Registry) {name n : String} (t d : String) (h : n ≠ name) :
    (setTag reg name t d) n = reg n := by
  simp [setTag, h]

/-- Storing a payload under its own digest keeps a store content-addressed. -/
theorem StoreHashed.updSelf {s : Store} (hs : StoreHashed s) (v : String) :
    StoreHashed (updStore s (make_digest v) v) := by
  intro d w h
  by_cases hd : d = make_digest v
  · subst hd
    rw [updStore_same] at h
    cases h
    rfl
  · rw [updStore_other _ _ hd] at h
    exact hs d w h

/-- `add_blob` preserves the registry invariant. -/
theorem add_blob_consistent {reg : Registry} (h : RegConsistent reg)
    (name blob : String) : RegConsistent (add_blob reg name blob).1 := by
  intro n
  show RepoConsistent ((setBlob reg name (make_digest blob) blob) n)
  by_cases hn : n = name
  · subst hn
    rw [setBlob_eq]
    exact ⟨(h n).1.updSelf blob, (h n).2.1, (h n).2.2⟩
  · rw [setBlob_ne _ _ _ hn]
    exact h n

/-- `add_manifest` preserves the registry invariant (also on the
assertion-failure path, where the manifest is already stored). -/
theorem add_manifest_consistent {reg : Registry} (h : RegConsistent reg)
    (name ref manifest : String) :
    RegConsistent (add_manifest reg name ref manifest).1 := by
  have hset : RegConsistent (setManifest reg name (make_digest manifest) manifest) := by
    intro n
    by_cases hn : n = name
    · subst hn
      rw [setManifest_eq]
      refine ⟨(h n).1, (h n).2.1.updSelf manifest, ?_⟩
      intro t d htag
      dsimp only at htag ⊢
      rcases (h n).2.2 t d htag with ⟨m, hm⟩
      by_cases hd : d = make_digest manifest
      · exact ⟨manifest, by rw [hd]; exact updStore_same _ _ _⟩
      · exact ⟨m, by rw [updStore_other _ _ hd]; exact hm⟩
    · rw [setManifest_ne _ _ _ hn]
      exact h n
  unfold add_manifest
  by_cases hr : isDigestRef ref
  · simpa [hr] using hset
  · simp only [hr, Bool.false_eq_true, if_false]
    intro n
    by_cases hn : n = name
    · subst hn
      rw [setTag_eq]
      refine ⟨(hset n).1, (hset n).2.1, ?_⟩
      intro t d htag
      dsimp only at htag ⊢
      by_cases ht : t = ref
      · subst ht
        rw [updStore_same] at htag
        cases htag
        refine ⟨manifest, ?_⟩
        show (setManifest reg n (make_digest manifest) manifest n).manifests _ = _
        rw [setManifest_eq]
        exact updStore_same _ _ _
      · rw [updStore_other _ _ ht] at htag
        exact (hset n).2.2 t d htag
    · rw [setTag_ne _ _ _ hn]
      exact hset n

/-- `_put_manifest` preserves the registry invariant. -/
theorem put_manifest_consistent {reg : Registry} (h : RegConsistent reg)
    (name ref body : String) : RegConsistent (put_manifest reg name ref body).2 := by
  unfold put_manifest
  by_cases hv : isValidJson body
  · rcases hm : add_manifest reg name ref body with ⟨reg1, d, ok⟩
    have := add_manifest_consistent h name ref body
    rw [hm] at this
    simp only [hv, if_true, hm]
    exact this
  · simpa [hv] using h

/-- `_mount_blob` preserves the registry invariant. -/
theorem mount_blob_consistent {reg : Registry} (h : RegConsistent reg)
    (target digest source : String) :
    RegConsistent (mount_blob reg target digest source).2 := by
  unfold mount_blob
  cases hb : (reg source).blobs digest with
  | none => simpa using h
  | some b =>
    simp only
    intro n
    by_cases hn : n = target
    · subst hn
      rw [setBlob_eq]
      have hd : make_digest b = digest := (h source).1 digest b hb
      refine ⟨?_, (h n).2.1, (h n).2.2⟩
      intro d w hw
      dsimp only at hw
      by_cases hdd : d = digest
      · subst hdd
        rw [← hd, updStore_same] at hw
        cases hw
        exact hd
      · rw [← hd] at hdd hw
        rw [updStore_other _ _ hdd] at hw
        exact (h n).1 d w hw
    · rw [setBlob_ne _ _ _ hn]
      exact h n

/-- The empty registry satisfies the invariant. -/
theorem regConsistent_empty : RegConsistent emptyRegistry := by
  intro n
  refine ⟨?_, ?_, ?_⟩ <;> intro a b hab <;> simp [emptyRegistry, emptyRepo] at hab

/-- Every reachable registry state satisfies the invariant. -/
theorem reach_consistent {reg : Registry} (h : Reach reg) : RegConsistent reg := by
  induction h with
  | init => exact regConsistent_empty
  | addBlob name blob _ ih => exact add_blob_consistent ih name blob
  | addManifest name ref manifest _ ih => exact add_manifest_consistent ih name ref manifest
  | putManifest name ref body _ ih => exact put_manifest_consistent ih name ref body
  | mountBlob target digest source _ ih => exact mount_blob_consistent ih target digest source

/-- A manifest PUT whose body is not valid JSON is rejected with status 400
and leaves the state unchanged. -/
theorem put_manifest_invalid (reg : Registry) (name ref body : String)
    (h : isValidJson body = false) :
    put_manifest reg name ref body = (some 400, reg) := by
  simp [put_manifest, h]

/-! ### The digest is a canonical identity -/

/-- The modelled digest is a faithful content identity: byte-identical
payloads (and only those) share a digest. -/
theorem make_digest_inj {s t : String} (h : make_digest s = make_digest t) : s = t := by
  have hd : (make_digest s).data = (make_digest t).data := by rw [h]
  simp only [make_digest, String.data_append] at hd
  have hdata : s.data = t.data := List.append_cancel_left hd
  cases s
  cases t
  exact congrArg String.mk hdata

theorem isPrefixOf_append (l r : List Char) : l.isPrefixOf (l ++ r) = true := by
  induction l with
  | nil => simp
  | cons c cs ih => simp [List.isPrefixOf_cons₂, ih]

/-- Every computed digest is a digest reference. -/
theorem isDigestRef_make_digest (s : String) : isDigestRef (make_digest s) = true := by
  show ("sha256:".data.isPrefixOf (make_digest s).data) = true
  simp only [make_digest, String.data_append]
  exact isPrefixOf_append _ _

/-! ### Source resolution -/

theorem mem_missing_platforms {conf : RegistryConf} {wbs : List (String × List SourceLoc)}
    {p : String} (h : p ∈ missing_platforms conf wbs) :
    ∃ pb ∈ wbs, pb.1 = p ∧ find_source conf pb.2 = none := by
  unfold missing_platforms at h
  rcases List.mem_map.mp h with ⟨pb, hpb, rfl⟩
  rcases List.mem_filter.mp hpb with ⟨hmem, hnone⟩
  exact ⟨pb, hmem, rfl, Option.isNone_iff_eq_none.mp hnone⟩

theorem resolve_sources_error_of_missing (wbs : List (String × List SourceLoc)) :
    ∀ confs : List RegistryConf,
    (∃ conf ∈ confs, missing_platforms conf wbs ≠ []) →
    ∃ conf ∈ confs, missing_platforms conf wbs ≠ [] ∧
      resolve_sources confs wbs
        = .error (.missingPlatforms conf.name (missing_platforms conf wbs)) := by
  intro confs
  induction confs with
  | nil =>
    rintro ⟨c, hc, _⟩
    simp at hc
  | cons conf rest ih =>
    rintro ⟨c, hc, hmiss⟩
    by_cases h0 : missing_platforms conf wbs = []
    · have hex : ∃ c' ∈ rest, missing_platforms c' wbs ≠ [] := by
        rcases List.mem_cons.mp hc with rfl | hc'
        · exact absurd h0 hmiss
        · exact ⟨c, hc', hmiss⟩
      rcases ih hex with ⟨c', hc', hm', heq⟩
      refine ⟨c', List.mem_cons_of_mem _ hc', hm', ?_⟩
      simp [resolve_sources, h0, heq]
    · exact ⟨conf, List.mem_cons_self _ _, h0, by simp [resolve_sources, h0]⟩

theorem resolve_sources_ok_spec (wbs : List (String × List SourceLoc)) :
    ∀ (confs : List RegistryConf) (out : List (RegistryConf × List (String × SourceLoc))),
    resolve_sources confs wbs = .ok out →
    out = confs.map (fun conf => (conf, registry_sources conf wbs)) ∧
      ∀ conf ∈ confs, missing_platforms conf wbs = [] := by
  intro confs
  induction confs with
  | nil =>
    intro out h
    simp [resolve_sources] at h
    simp [← h]
  | cons conf rest ih =>
    intro out h
    by_cases h0 : missing_platforms conf wbs = []
    · simp only [resolve_sources, h0, if_true] at h
      cases hrec : resolve_sources rest wbs with
      | error e => rw [hrec] at h; cases h
      | ok out' =>
        rw [hrec] at h
        cases h
        rcases ih out' hrec with ⟨hout, hall⟩
        constructor
        · simp [hout]
        · intro c hc
          rcases List.mem_cons.mp hc with rfl | hc'
          · exact h0
          · exact hall c hc'
    · simp [resolve_sources, h0] at h

/-! ### Projection lemmas for the state updates -/

theorem setBlob_tags (reg : Registry) (name d b n : String) :
    ((setBlob reg name d b) n).tags = (reg n).tags := by
  by_cases h : n = name <;> simp [setBlob, h]

theorem setBlob_manifests (reg : Registry) (name d b n : String) :
    ((setBlob reg name d b) n).manifests = (reg n).manifests := by
  by_cases h : n = name <;> simp [setBlob, h]

theorem setBlob_blobs_eq (reg : Registry) (name d b : String) :
    ((setBlob reg name d b) name).blobs = updStore (reg name).blobs d b := by
  simp [setBlob]

theorem setBlob_blobs_ne (reg : Registry) {name n : String} (d b : String) (h : n ≠ name) :
    ((setBlob reg name d b) n).blobs = (reg n).blobs := by
  simp [setBlob, h]

theorem setManifest_tags (reg : Registry) (name d m n : String) :
    ((setManifest reg name d m) n).tags = (reg n).tags := by
  by_cases h : n = name <;> simp [setManifest, h]

theorem setManifest_blobs (reg : Registry) (name d m n : String) :
    ((setManifest reg name d m) n).blobs = (reg n).blobs := by
  by_cases h : n = name <;> simp [setManifest, h]

theorem setManifest_manifests_eq (reg : Registry) (name d m : String) :
    ((setManifest reg name d m) name).manifests = updStore (reg name).manifests d m := by
  simp [setManifest]

theorem setManifest_manifests_ne (reg : Registry) {name n : String} (d m : String)
    (h : n ≠ name) : ((setManifest reg name d m) n).manifests = (reg n).manifests := by
  simp [setManifest, h]

theorem setTag_blobs (reg : Registry) (name t d n : String) :
    ((setTag reg name t d) n).blobs = (reg n).blobs := by
  by_cases h : n = name <;> simp [setTag, h]

theorem setTag_manifests (reg : Registry) (name t d n : String) :
    ((setTag reg name t d) n).manifests = (reg n).manifests := by
  by_cases h : n = name <;> simp [setTag, h]

theorem setTag_tags_frame (reg : Registry) {name t : String} (d : String) {n t' : String}
    (h : ¬(n = name ∧ t' = t)) : ((setTag reg name t d) n).tags t' = (reg n).tags t' := by
  by_cases hn : n = name
  · subst hn
    have ht : t' ≠ t := fun he => h ⟨rfl, he⟩
    simp [setTag, updStore, ht]
  · simp [setTag, hn]

theorem setTag_tags_self (reg : Registry) (name t d : String) :
    ((setTag reg name t d) name).tags t = some d := by
  simp [setTag, updStore]

/-! ### Effects of the registry operations -/

theorem add_manifest_fst (reg : Registry) (name ref m : String) :
    (add_manifest reg name ref m).1
      = if isDigestRef ref then setManifest reg name (make_digest m) m
        else setTag (setManifest reg name (make_digest m) m) name ref (make_digest m) := by
  unfold add_manifest
  by_cases h : isDigestRef ref <;> simp [h]

theorem add_manifest_blobs (reg : Registry) (name ref m n : String) :
    ((add_manifest reg name ref m).1 n).blobs = (reg n).blobs := by
  rw [add_manifest_fst]
  by_cases h : isDigestRef ref <;> simp [h, setTag_blobs, setManifest_blobs]

theorem add_manifest_tags_frame (reg : Registry) {name ref : String} (m : String)
    {n t : String} (h : ¬(n = name ∧ t = ref)) :
    ((add_manifest reg name ref m).1 n).tags t = (reg n).tags t := by
  rw [add_manifest_fst]
  by_cases hr : isDigestRef ref
  · simp [hr, setManifest_tags]
  · simp only [hr, Bool.false_eq_true, if_false]
    rw [setTag_tags_frame _ _ h]
    rw [setManifest_tags]

theorem add_manifest_tags_digest (reg : Registry) {name ref : String} (m : String)
    (hr : isDigestRef ref = true) (n : String) :
    ((add_manifest reg name ref m).1 n).tags = (reg n).tags := by
  rw [add_manifest_fst]
  simp [hr, setManifest_tags]

theorem add_manifest_manifests_frame (reg : Registry) (name ref m : String)
    {n d : String} (h : ¬(n = name ∧ d = make_digest m)) :
    ((add_manifest reg name ref m).1 n).manifests d = (reg n).manifests d := by
  rw [add_manifest_fst]
  have base : ∀ x : Registry, x = setManifest reg name (make_digest m) m →
      (x n).manifests d = (reg n).manifests d := by
    rintro x rfl
    by_cases hn : n = name
    · subst hn
      rw [setManifest_manifests_eq]
      have hd : d ≠ make_digest m := fun he => h ⟨rfl, he⟩
      exact updStore_other _ _ hd
    · rw [setManifest_manifests_ne _ _ _ hn]
  by_cases hr : isDigestRef ref
  · simp only [hr, if_true]
    exact base _ rfl
  · simp only [hr, Bool.false_eq_true, if_false]
    rw [setTag_manifests]
    exact base _ rfl

theorem add_manifest_manifests_self (reg : Registry) (name ref m : String) :
    ((add_manifest reg name ref m).1 name).manifests (make_digest m) = some m := by
  rw [add_manifest_fst]
  by_cases hr : isDigestRef ref
  · simp only [hr, if_true]
    rw [setManifest_manifests_eq]
    exact updStore_same _ _ _
  · simp only [hr, Bool.false_eq_true, if_false]
    rw [setTag_manifests, setManifest_manifests_eq]
    exact updStore_same _ _ _

theorem add_manifest_manMono {reg : Registry} (hcons : RegConsistent reg)
    (name ref m : String) : ManMono reg (add_manifest reg name ref m).1 := by
  intro n d v hv
  by_cases hd : n = name ∧ d = make_digest m
  · obtain ⟨rfl, rfl⟩ := hd
    have : make_digest v = make_digest m := (hcons n).2.1 _ v hv
    have hvm : v = m := make_digest_inj this
    rw [hvm] at hv ⊢
    exact add_manifest_manifests_self reg n ref m
  · rw [add_manifest_manifests_frame reg name ref m hd]
    exact hv

theorem add_manifest_ok_get (reg : Registry) (name ref m : String)
    (h : (add_manifest reg name ref m).2.2 = true) :
    get_manifest (add_manifest reg name ref m).1 name ref = some m := by
  have hfst := add_manifest_fst reg name ref m
  by_cases hr : isDigestRef ref
  · have hrefd : ref = make_digest m := by
      unfold add_manifest at h
      simp only [hr, if_true] at h
      exact of_decide_eq_true h
    unfold get_manifest
    rw [hfst]
    simp only [hr, if_true]
    rw [hrefd, setManifest_manifests_eq]
    exact updStore_same _ _ _
  · unfold get_manifest
    rw [hfst]
    simp only [hr, Bool.false_eq_true, if_false]
    rw [setTag_tags_self, setTag_manifests, setManifest_manifests_eq]
    exact updStore_same _ _ _

theorem mount_blob_tags (reg : Registry) (t d s n : String) :
    ((mount_blob reg t d s).2 n).tags = (reg n).tags := by
  unfold mount_blob
  cases (reg s).blobs d <;> simp [setBlob_tags]

theorem mount_blob_manifests (reg : Registry) (t d s n : String) :
    ((mount_blob reg t d s).2 n).manifests = (reg n).manifests := by
  unfold mount_blob
  cases (reg s).blobs d <;> simp [setBlob_manifests]

theorem setBlob_hashed_effects {reg : Registry} (hcons : RegConsistent reg)
    {dst d b : String} (hd : make_digest b = d) :
    RegConsistent (setBlob reg dst d b) ∧
    BlobMono reg (setBlob reg dst d b) ∧
    (∀ n d', ¬(n = dst ∧ d' = d) → ((setBlob reg dst d b) n).blobs d' = (reg n).blobs d') ∧
    ((setBlob reg dst d b) dst).blobs d = some b := by
  refine ⟨?_, ?_, ?_, ?_⟩
  · intro n
    by_cases hn : n = dst
    · subst hn
      rw [setBlob_eq]
      refine ⟨?_, (hcons n).2.1, (hcons n).2.2⟩
      intro d' v hv
      dsimp only at hv
      by_cases hdd : d' = d
      · subst hdd
        rw [updStore_same] at hv
        cases hv
        exact hd
      · rw [updStore_other _ _ hdd] at hv
        exact (hcons n).1 d' v hv
    · rw [setBlob_ne _ _ _ hn]
      exact hcons n
  · intro n d' v hv
    by_cases hc : n = dst ∧ d' = d
    · obtain ⟨rfl, rfl⟩ := hc
      have : make_digest v = make_digest b := by rw [hd]; exact (hcons n).1 _ v hv
      have hvb : v = b := make_digest_inj this
      subst hvb
      rw [setBlob_eq]
      dsimp only
      exact updStore_same _ _ _
    · by_cases hn : n = dst
      · subst hn
        have hdd : d' ≠ d := fun he => hc ⟨rfl, he⟩
        rw [setBlob_eq]
        dsimp only
        rw [updStore_other _ _ hdd]
        exact hv
      · rw [setBlob_ne _ _ _ hn]
        exact hv
  · intro n d' hc
    by_cases hn : n = dst
    · subst hn
      have hdd : d' ≠ d := fun he => hc ⟨rfl, he⟩
      rw [setBlob_eq]
      dsimp only
      exact updStore_other _ _ hdd
    · rw [setBlob_ne _ _ _ hn]
  · rw [setBlob_eq]
    dsimp only
    exact updStore_same _ _ _

theorem copy_blob_effects {reg reg' : Registry} {src dst d : String}
    (hcons : RegConsistent reg) (h : copy_blob reg src dst d = .ok reg') :
    RegConsistent reg' ∧
    (∀ n, (reg' n).tags = (reg n).tags) ∧
    (∀ n, (reg' n).manifests = (reg n).manifests) ∧
    BlobMono reg reg' ∧
    (∀ n d', ¬(n = dst ∧ d' = d) → (reg' n).blobs d' = (reg n).blobs d') ∧
    ((reg' dst).blobs d).isSome = true := by
  unfold copy_blob at h
  cases hb : (reg src).blobs d with
  | some b =>
    have hmount : mount_blob reg dst d src = (201, setBlob reg dst d b) := by
      unfold mount_blob
      rw [hb]
    rw [hmount] at h
    simp only [if_pos rfl] at h
    cases h
    have hd : make_digest b = d := (hcons src).1 d b hb
    obtain ⟨h1, h2, h3, h4⟩ := setBlob_hashed_effects hcons hd
    exact ⟨h1, fun n => setBlob_tags reg dst d b n, fun n => setBlob_manifests reg dst d b n,
      h2, h3, by rw [h4]; rfl⟩
  | none =>
    have hmount : mount_blob reg dst d src = (202, reg) := by
      unfold mount_blob
      rw [hb]
    rw [hmount] at h
    have hget : get_blob reg src d = none := hb
    simp only [hget] at h
    cases h

theorem copy_blob_list_effects {src dst : String} :
    ∀ (ds : List String) (reg reg' : Registry), RegConsistent reg →
    copy_blob_list src dst ds reg = .ok reg' →
    RegConsistent reg' ∧
    (∀ n, (reg' n).tags = (reg n).tags) ∧
    (∀ n, (reg' n).manifests = (reg n).manifests) ∧
    BlobMono reg reg' ∧
    (∀ n d', ¬(n = dst ∧ d' ∈ ds) → (reg' n).blobs d' = (reg n).blobs d') ∧
    (∀ d ∈ ds, ((reg' dst).blobs d).isSome = true) := by
  intro ds
  induction ds with
  | nil =>
    intro reg reg' hcons h
    unfold copy_blob_list at h
    cases h
    exact ⟨hcons, fun _ => rfl, fun _ => rfl, fun _ _ _ hv => hv,
      fun _ _ _ => rfl, fun d hd => by simp at hd⟩
  | cons d ds ih =>
    intro reg reg' hcons h
    unfold copy_blob_list at h
    cases hcb : copy_blob reg src dst d with
    | error e => rw [hcb] at h; cases h
    | ok reg1 =>
      rw [hcb] at h
      obtain ⟨c1, t1, m1, b1, f1, p1⟩ := copy_blob_effects hcons hcb
      obtain ⟨c2, t2, m2, b2, f2, p2⟩ := ih reg1 reg' c1 h
      refine ⟨c2, fun n => (t2 n).trans (t1 n), fun n => (m2 n).trans (m1 n),
        fun n dd v hv => b2 n dd v (b1 n dd v hv), ?_, ?_⟩
      · intro n d' hc
        have hc1 : ¬(n = dst ∧ d' ∈ ds) := fun ⟨he, hm⟩ => hc ⟨he, List.mem_cons_of_mem _ hm⟩
        have hc2 : ¬(n = dst ∧ d' = d) := fun ⟨he, hm⟩ => hc ⟨he, hm ▸ List.mem_cons_self _ _⟩
        rw [f2 n d' hc1, f1 n d' hc2]
      · intro dd hdd
        rcases List.mem_cons.mp hdd with rfl | hmem
        · rcases Option.isSome_iff_exists.mp p1 with ⟨b, hbv⟩
          have := b2 dst dd b hbv
          rw [this]
          rfl
        · exact p2 dd hmem

theorem client_get_ok {reg : Registry} {repo ref bytes : String}
    (h : client_get_manifest reg repo ref = .ok bytes) :
    get_manifest reg repo ref = some bytes ∧
      (isDigestRef ref = true → make_digest bytes = ref) := by
  unfold client_get_manifest at h
  cases hg : get_manifest reg repo ref with
  | none => rw [hg] at h; cases h
  | some b =>
    rw [hg] at h
    dsimp only at h
    split at h
    · cases h
    · rename_i hcond
      cases h
      push_neg at hcond
      exact ⟨rfl, hcond⟩

theorem replicate_platform_effects {goarch : List (String × String)}
    {reg : Registry} {dstRepo p : String} {loc : SourceLoc}
    {reg' : Registry} {bytes : String} {e : ListEntry}
    (hcons : RegConsistent reg)
    (h : replicate_platform goarch reg dstRepo p loc = .ok (reg', bytes, e)) :
    get_manifest reg loc.repository loc.digest = some bytes ∧
    (isDigestRef loc.digest = true →
      (reg loc.repository).manifests loc.digest = some bytes ∧
        make_digest bytes = loc.digest) ∧
    ∃ m arch,
      parse_manifest bytes = some m ∧
      (manifest_family m.mediaType).isSome = true ∧
      goarch.lookup p = some arch ∧
      e = ⟨m.mediaType, make_digest bytes, Int.ofNat bytes.length, "linux", arch⟩ ∧
      RegConsistent reg' ∧
      (∀ n, (reg' n).tags = (reg n).tags) ∧
      ManMono reg reg' ∧
      (∀ n d, ¬(n = dstRepo ∧ d = make_digest bytes) →
        (reg' n).manifests d = (reg n).manifests d) ∧
      (reg' dstRepo).manifests (make_digest bytes) = some bytes ∧
      BlobMono reg reg' ∧
      (∀ n d, ¬(n = dstRepo ∧ d ∈ copied_digests m) →
        (reg' n).blobs d = (reg n).blobs d) ∧
      (∀ d ∈ copied_digests m, ((reg' dstRepo).blobs d).isSome = true) := by
  unfold replicate_platform at h
  cases hcg : client_get_manifest reg loc.repository loc.digest with
  | error er => rw [hcg] at h; cases h
  | ok bytes0 =>
    rw [hcg] at h
    dsimp only at h
    obtain ⟨hget, hhash⟩ := client_get_ok hcg
    cases hpm : parse_manifest bytes0 with
    | none => rw [hpm] at h; cases h
    | some m =>
      rw [hpm] at h
      dsimp only at h
      cases hfam : manifest_family m.mediaType with
      | none => rw [hfam] at h; cases h
      | some fam =>
        rw [hfam] at h
        dsimp only at h
        cases hcb : copy_blobs reg loc.repository dstRepo m with
        | error er => rw [hcb] at h; cases h
        | ok reg1 =>
          rw [hcb] at h
          dsimp only at h
          cases harch : goarch.lookup p with
          | none => rw [harch] at h; cases h
          | some arch =>
            rw [harch] at h
            dsimp only at h
            cases h
            unfold copy_blobs at hcb
            obtain ⟨c1, t1, m1, b1, f1, p1⟩ := copy_blob_list_effects _ reg reg1 hcons hcb
            have hdref : isDigestRef (make_digest bytes) = true :=
              isDigestRef_make_digest bytes
            have c2 := add_manifest_consistent c1 dstRepo (make_digest bytes) bytes
            refine ⟨hget, ?_, m, arch, hpm, by rw [hfam]; rfl, rfl, rfl, c2, ?_, ?_, ?_, ?_,
              ?_, ?_, ?_⟩
            · intro hdg
              refine ⟨?_, hhash hdg⟩
              unfold get_manifest at hget
              rw [if_pos hdg] at hget
              exact hget
            · intro n
              rw [add_manifest_tags_digest _ _ hdref n, t1 n]
            · intro n d v hv
              have hv1 : (reg1 n).manifests d = some v := by rw [m1 n]; exact hv
              exact add_manifest_manMono c1 dstRepo (make_digest bytes) bytes n d v hv1
            · intro n d hc
              rw [add_manifest_manifests_frame reg1 dstRepo (make_digest bytes) bytes hc,
                m1 n]
            · exact add_manifest_manifests_self reg1 dstRepo (make_digest bytes) bytes
            · intro n d v hv
              rw [add_manifest_blobs]
              exact b1 n d v hv
            · intro n d hc
              rw [add_manifest_blobs]
              exact f1 n d hc
            · intro d hd
              rw [add_manifest_blobs]
              exact p1 d hd

theorem expected_entry_stable {a b : Registry} (hman : ManMono a b)
    (goarch : List (String × String)) {p : String} {loc : SourceLoc}
    (hpres : ((a loc.repository).manifests loc.digest).isSome = true) :
    expected_entry b goarch p loc = expected_entry a goarch p loc := by
  rcases Option.isSome_iff_exists.mp hpres with ⟨v, hv⟩
  unfold expected_entry
  rw [hv, hman _ _ _ hv]

theorem sources_ok_mono {a b : Registry} (hman : ManMono a b)
    {sources : List (String × SourceLoc)} (h : sources_ok_b a sources = true) :
    sources_ok_b b sources = true := by
  unfold sources_ok_b at h ⊢
  rw [List.all_eq_true] at h ⊢
  intro ps hps
  obtain ⟨h1, h2⟩ := Bool.and_eq_true_iff.mp (h ps hps)
  rcases Option.isSome_iff_exists.mp h2 with ⟨v, hv⟩
  exact Bool.and_eq_true_iff.mpr ⟨h1, by rw [hman _ _ _ hv]; rfl⟩

theorem forall2_expected_stable {a b : Registry} (hman : ManMono a b)
    (goarch : List (String × String)) :
    ∀ (srcs : List (String × SourceLoc)) (es : List ListEntry),
    sources_ok_b a srcs = true →
    List.Forall₂ (fun ps e => expected_entry b goarch ps.1 ps.2 = some e) srcs es →
    List.Forall₂ (fun ps e => expected_entry a goarch ps.1 ps.2 = some e) srcs es := by
  intro srcs
  induction srcs with
  | nil =>
    intro es hok hf
    cases hf
    exact .nil
  | cons x l1 ihl =>
    intro es hok hf
    cases hf with
    | cons hxy hrest =>
      obtain ⟨_, hp⟩ :=
        Bool.and_eq_true_iff.mp (List.all_eq_true.mp hok x (List.mem_cons_self _ _))
      have hoktail : sources_ok_b a l1 = true :=
        List.all_eq_true.mpr fun z hz =>
          List.all_eq_true.mp hok z (List.mem_cons_of_mem _ hz)
      refine .cons ?_ (ihl _ hoktail hrest)
      rw [expected_entry_stable hman goarch hp] at hxy
      exact hxy

theorem collect_platforms_effects {goarch : List (String × String)} {dstRepo : String} :
    ∀ (sources : List (String × SourceLoc)) (reg reg' : Registry) (es : List ListEntry),
    RegConsistent reg →
    sources_ok_b reg sources = true →
    collect_platforms goarch dstRepo sources reg = .ok (reg', es) →
    RegConsistent reg' ∧
    (∀ n, (reg' n).tags = (reg n).tags) ∧
    ManMono reg reg' ∧
    BlobMono reg reg' ∧
    List.Forall₂ (fun ps e => expected_entry reg goarch ps.1 ps.2 = some e) sources es ∧
    (∀ ps ∈ sources, ∃ b m,
      (reg ps.2.repository).manifests ps.2.digest = some b ∧
      make_digest b = ps.2.digest ∧
      parse_manifest b = some m ∧
      (reg' dstRepo).manifests ps.2.digest = some b ∧
      (∀ d ∈ copied_digests m, ((reg' dstRepo).blobs d).isSome = true)) ∧
    (∀ n d, (reg' n).blobs d ≠ (reg n).blobs d →
      n = dstRepo ∧ ∃ ps ∈ sources, ∃ b m,
        (reg ps.2.repository).manifests ps.2.digest = some b ∧
        parse_manifest b = some m ∧ d ∈ copied_digests m) := by
  intro sources
  induction sources with
  | nil =>
    intro reg reg' es hcons hok h
    unfold collect_platforms at h
    cases h
    refine ⟨hcons, fun _ => rfl, fun _ _ _ hv => hv, fun _ _ _ hv => hv, .nil,
      fun ps hps => by simp at hps, fun n d hne => absurd rfl hne⟩
  | cons ps rest ih =>
    intro reg reg' es hcons hok h
    obtain ⟨p, loc⟩ := ps
    unfold collect_platforms at h
    cases hrep : replicate_platform goarch reg dstRepo p loc with
    | error e => rw [hrep] at h; cases h
    | ok out =>
      obtain ⟨reg1, bytes, e⟩ := out
      rw [hrep] at h
      dsimp only at h
      cases hcol : collect_platforms goarch dstRepo rest reg1 with
      | error e2 => rw [hcol] at h; cases h
      | ok out2 =>
        obtain ⟨reg2, es2⟩ := out2
        rw [hcol] at h
        dsimp only at h
        cases h
        -- head source is digest-addressed and present
        have hok' := List.all_eq_true.mp hok
        obtain ⟨hdig, _⟩ :=
          Bool.and_eq_true_iff.mp (hok' (p, loc) (List.mem_cons_self _ _))
        obtain ⟨hget, hdigfacts, m, arch, hpm, hfam, harch, hee, c1, t1, mm1, mf1, ms1,
          bm1, bf1, bp1⟩ := replicate_platform_effects hcons hrep
        obtain ⟨hpres, hhash⟩ := hdigfacts hdig
        have hokrest : sources_ok_b reg rest = true :=
          List.all_eq_true.mpr fun x hx => hok' x (List.mem_cons_of_mem _ hx)
        obtain ⟨c2, t2, mm2, bm2, hfa, hcont2, hbf2⟩ :=
          ih reg1 reg' es2 c1 (sources_ok_mono mm1 hokrest) hcol
        have mm12 : ManMono reg reg' := fun n d v hv => mm2 n d v (mm1 n d v hv)
        have bm12 : BlobMono reg reg' := fun n d v hv => bm2 n d v (bm1 n d v hv)
        refine ⟨c2, fun n => (t2 n).trans (t1 n), mm12, bm12, ?_, ?_, ?_⟩
        · refine List.Forall₂.cons ?_ ?_
          · simp only [expected_entry, hpres, hpm, harch, hee]
          · exact forall2_expected_stable mm1 goarch _ _ hokrest hfa
        · intro x hx
          rcases List.mem_cons.mp hx with rfl | hmem
          · refine ⟨bytes, m, hpres, hhash, hpm, ?_, ?_⟩
            · have : (reg1 dstRepo).manifests (make_digest bytes) = some bytes := ms1
              rw [hhash] at this
              exact mm2 _ _ _ this
            · intro d hd
              rcases Option.isSome_iff_exists.mp (bp1 d hd) with ⟨bv, hbv⟩
              rw [bm2 _ _ _ hbv]
              rfl
          · obtain ⟨b, m', hb, hh, hp', hm', hblobs⟩ := hcont2 x hmem
            obtain ⟨_, hpx⟩ := Bool.and_eq_true_iff.mp (hok' x (List.mem_cons_of_mem _ hmem))
            rcases Option.isSome_iff_exists.mp hpx with ⟨v, hv⟩
            have : (reg1 x.2.repository).manifests x.2.digest = some v := mm1 _ _ _ hv
            rw [this] at hb
            cases hb
            exact ⟨b, m', hv, hh, hp', hm', hblobs⟩
        · intro n d hne
          by_cases h2 : (reg' n).blobs d = (reg1 n).blobs d
          · have h1 : (reg1 n).blobs d ≠ (reg n).blobs d := fun he =>
              hne (h2.trans he)
            have := bf1 n d
            by_cases hc : n = dstRepo ∧ d ∈ copied_digests m
            · exact ⟨hc.1, (p, loc), List.mem_cons_self _ _, bytes, m, hpres, hpm, hc.2⟩
            · exact absurd (this hc) h1
          · obtain ⟨hdst, x, hx, b, m', hb, hp', hd'⟩ := hbf2 n d h2
            obtain ⟨_, hpx⟩ := Bool.and_eq_true_iff.mp (hok' x (List.mem_cons_of_mem _ hx))
            rcases Option.isSome_iff_exists.mp hpx with ⟨v, hv⟩
            have hv1 : (reg1 x.2.repository).manifests x.2.digest = some v := mm1 _ _ _ hv
            rw [hv1] at hb
            cases hb
            exact ⟨hdst, x, List.mem_cons_of_mem _ hx, b, m', hv, hp', hd'⟩

theorem add_manifest_digest_val (reg : Registry) (name ref m : String) :
    (add_manifest reg name ref m).2.1 = make_digest m := by
  unfold add_manifest
  by_cases h : isDigestRef ref <;> simp [h]

theorem publish_grouped_effects {goarch : List (String × String)}
    {sources : List (String × SourceLoc)} {reg reg' : Registry} {repo tag : String}
    {art : PubArtifact}
    (hcons : RegConsistent reg) (hok : sources_ok_b reg sources = true)
    (h : publish_grouped goarch sources reg repo tag = .ok (reg', art)) :
    RegConsistent reg' ∧
    ManMono reg reg' ∧
    BlobMono reg reg' ∧
    (∀ n t', ¬(n = repo ∧ t' = tag) → (reg' n).tags t' = (reg n).tags t') ∧
    (∃ es fam,
      List.Forall₂ (fun ps e => expected_entry reg goarch ps.1 ps.2 = some e) sources es ∧
      common_family es = some fam ∧
      art = ⟨make_digest (build_list_bytes (list_media_type fam) es), list_media_type fam,
        build_list_bytes (list_media_type fam) es⟩ ∧
      get_manifest reg' repo tag = some (build_list_bytes (list_media_type fam) es) ∧
      (reg' repo).manifests (make_digest (build_list_bytes (list_media_type fam) es))
        = some (build_list_bytes (list_media_type fam) es)) ∧
    (∀ ps ∈ sources, ∃ b m,
      (reg ps.2.repository).manifests ps.2.digest = some b ∧
      make_digest b = ps.2.digest ∧
      parse_manifest b = some m ∧
      (reg' repo).manifests ps.2.digest = some b ∧
      (∀ d ∈ copied_digests m, ((reg' repo).blobs d).isSome = true)) ∧
    (∀ n d, (reg' n).blobs d ≠ (reg n).blobs d →
      n = repo ∧ ∃ ps ∈ sources, ∃ b m,
        (reg ps.2.repository).manifests ps.2.digest = some b ∧
        parse_manifest b = some m ∧ d ∈ copied_digests m) := by
  unfold publish_grouped at h
  cases hcol : collect_platforms goarch repo sources reg with
  | error e => rw [hcol] at h; cases h
  | ok out =>
    obtain ⟨reg1, es⟩ := out
    rw [hcol] at h
    dsimp only at h
    cases hfam : common_family es with
    | none => rw [hfam] at h; cases h
    | some fam =>
      rw [hfam] at h
      dsimp only at h
      rcases ham : add_manifest reg1 repo tag (build_list_bytes (list_media_type fam) es)
        with ⟨reg2, dg, okf⟩
      rw [ham] at h
      dsimp only at h
      cases okf with
      | false => simp at h
      | true =>
        simp only [if_true] at h
        cases h
        obtain ⟨c1, t1, mm1, bm1, hfa, hcont, hbf⟩ :=
          collect_platforms_effects sources reg reg1 es hcons hok hcol
        set bytes := build_list_bytes (list_media_type fam) es with hbytes
        have h1 : (add_manifest reg1 repo tag bytes).1 = reg' := by rw [ham]
        have h2 : (add_manifest reg1 repo tag bytes).2.1 = dg := by rw [ham]
        have h3 : (add_manifest reg1 repo tag bytes).2.2 = true := by rw [ham]
        have hdg : dg = make_digest bytes := by rw [← h2, add_manifest_digest_val]
        have c2 : RegConsistent reg' :=
          h1 ▸ add_manifest_consistent c1 repo tag bytes
        have mm2 : ManMono reg1 reg' :=
          h1 ▸ add_manifest_manMono c1 repo tag bytes
        have bm2 : ∀ n, (reg' n).blobs = (reg1 n).blobs := by
          rw [← h1]
          exact fun n => add_manifest_blobs reg1 repo tag bytes n
        refine ⟨c2, fun n d v hv => mm2 n d v (mm1 n d v hv),
          fun n d v hv => by rw [bm2 n]; exact bm1 n d v hv, ?_, ?_, ?_, ?_⟩
        · intro n t' hc
          rw [← h1, add_manifest_tags_frame reg1 bytes hc, t1 n]
        · refine ⟨es, fam, hfa, hfam, by rw [hdg], ?_, ?_⟩
          · rw [← h1]
            exact add_manifest_ok_get reg1 repo tag bytes h3
          · rw [← h1]
            exact add_manifest_manifests_self reg1 repo tag bytes
        · intro ps hps
          obtain ⟨b, m, hb, hh, hp, hm, hblobs⟩ := hcont ps hps
          refine ⟨b, m, hb, hh, hp, mm2 _ _ _ hm, ?_⟩
          intro d hd
          rw [bm2 repo]
          exact hblobs d hd
        · intro n d hne
          rw [bm2 n] at hne
          exact hbf n d hne

/-! ### Tag-map frames (independent of registry-state hypotheses) -/

theorem copy_blob_tags {reg reg' : Registry} {src dst d : String}
    (h : copy_blob reg src dst d = .ok reg') :
    ∀ n, (reg' n).tags = (reg n).tags := by
  unfold copy_blob at h
  by_cases hm : (mount_blob reg dst d src).1 = 201
  · rw [if_pos hm] at h
    cases h
    exact fun n => mount_blob_tags reg dst d src n
  · rw [if_neg hm] at h
    cases hg : get_blob reg src d with
    | none => rw [hg] at h; cases h
    | some b =>
      rw [hg] at h
      cases h
      exact fun n => setBlob_tags reg dst d b n

theorem copy_blob_list_tags {src dst : String} :
    ∀ (ds : List String) (reg reg' : Registry),
    copy_blob_list src dst ds reg = .ok reg' →
    ∀ n, (reg' n).tags = (reg n).tags := by
  intro ds
  induction ds with
  | nil =>
    intro reg reg' h n
    unfold copy_blob_list at h
    cases h
    rfl
  | cons d ds ih =>
    intro reg reg' h n
    unfold copy_blob_list at h
    cases hcb : copy_blob reg src dst d with
    | error e => rw [hcb] at h; cases h
    | ok reg1 =>
      rw [hcb] at h
      exact (ih reg1 reg' h n).trans (copy_blob_tags hcb n)

theorem replicate_platform_tags {goarch : List (String × String)}
    {reg : Registry} {dstRepo p : String} {loc : SourceLoc}
    {reg' : Registry} {bytes : String} {e : ListEntry}
    (h : replicate_platform goarch reg dstRepo p loc = .ok (reg', bytes, e)) :
    ∀ n, (reg' n).tags = (reg n).tags := by
  unfold replicate_platform at h
  cases hcg : client_get_manifest reg loc.repository loc.digest with
  | error er => rw [hcg] at h; cases h
  | ok bytes0 =>
    rw [hcg] at h
    dsimp only at h
    cases hpm : parse_manifest bytes0 with
    | none => rw [hpm] at h; cases h
    | some m =>
      rw [hpm] at h
      dsimp only at h
      cases hfam : manifest_family m.mediaType with
      | none => rw [hfam] at h; cases h
      | some fam =>
        rw [hfam] at h
        dsimp only at h
        cases hcb : copy_blobs reg loc.repository dstRepo m with
        | error er => rw [hcb] at h; cases h
        | ok reg1 =>
          rw [hcb] at h
          dsimp only at h
          cases harch : goarch.lookup p with
          | none => rw [harch] at h; cases h
          | some arch =>
            rw [harch] at h
            dsimp only at h
            cases h
            intro n
            rw [add_manifest_tags_digest _ _ (isDigestRef_make_digest _) n]
            exact copy_blob_list_tags _ reg reg1 hcb n

theorem collect_platforms_tags {goarch : List (String × String)} {dstRepo : String} :
    ∀ (sources : List (String × SourceLoc)) (reg reg' : Registry) (es : List ListEntry),
    collect_platforms goarch dstRepo sources reg = .ok (reg', es) →
    ∀ n, (reg' n).tags = (reg n).tags := by
  intro sources
  induction sources with
  | nil =>
    intro reg reg' es h n
    unfold collect_platforms at h
    cases h
    rfl
  | cons ps rest ih =>
    intro reg reg' es h n
    obtain ⟨p, loc⟩ := ps
    unfold collect_platforms at h
    cases hrep : replicate_platform goarch reg dstRepo p loc with
    | error e => rw [hrep] at h; cases h
    | ok out1 =>
      obtain ⟨rega, bytesa, ea⟩ := out1
      rw [hrep] at h
      dsimp only at h
      cases hrest : collect_platforms goarch dstRepo rest rega with
      | error e2 => rw [hrest] at h; cases h
      | ok out2 =>
        obtain ⟨regb, esb⟩ := out2
        rw [hrest] at h
        dsimp only at h
        cases h
        exact (ih _ _ _ hrest n).trans (replicate_platform_tags hrep n)

theorem publish_grouped_tags_frame {goarch : List (String × String)}
    {sources : List (String × SourceLoc)} {reg reg' : Registry} {repo tag : String}
    {art : PubArtifact}
    (h : publish_grouped goarch sources reg repo tag = .ok (reg', art)) :
    ∀ n t', ¬(n = repo ∧ t' = tag) → (reg' n).tags t' = (reg n).tags t' := by
  unfold publish_grouped at h
  cases hcol : collect_platforms goarch repo sources reg with
  | error e => rw [hcol] at h; cases h
  | ok out =>
    obtain ⟨reg1, es⟩ := out
    rw [hcol] at h
    dsimp only at h
    cases hfam : common_family es with
    | none => rw [hfam] at h; cases h
    | some fam =>
      rw [hfam] at h
      dsimp only at h
      rcases ham : add_manifest reg1 repo tag (build_list_bytes (list_media_type fam) es)
        with ⟨reg2, dg, okf⟩
      rw [ham] at h
      dsimp only at h
      cases okf with
      | false => simp at h
      | true =>
        simp only [if_true] at h
        cases h
        have ht1 : ∀ n, (reg1 n).tags = (reg n).tags :=
          collect_platforms_tags sources reg reg1 es hcol
        intro n t' hc
        have h1 : (add_manifest reg1 repo tag
            (build_list_bytes (list_media_type fam) es)).1 = reg' := by rw [ham]
        rw [← h1, add_manifest_tags_frame reg1 _ hc, ht1 n]

theorem publish_single_tags_frame {goarch : List (String × String)}
    {p : String} {loc : SourceLoc} {reg reg' : Registry} {repo tag : String}
    {art : PubArtifact}
    (h : publish_single goarch p loc reg repo tag = .ok (reg', art)) :
    ∀ n t', ¬(n = repo ∧ t' = tag) → (reg' n).tags t' = (reg n).tags t' := by
  unfold publish_single at h
  cases hrep : replicate_platform goarch reg repo p loc with
  | error e => rw [hrep] at h; cases h
  | ok out =>
    obtain ⟨reg1, bytes, e⟩ := out
    rw [hrep] at h
    dsimp only at h
    rcases ham : add_manifest reg1 repo tag bytes with ⟨reg2, dg, okf⟩
    rw [ham] at h
    dsimp only at h
    cases okf with
    | false => simp at h
    | true =>
      simp only [if_true] at h
      cases h
      intro n t' hc
      have h1 : (add_manifest reg1 repo tag bytes).1 = reg' := by rw [ham]
      rw [← h1, add_manifest_tags_frame reg1 _ hc]
      rw [replicate_platform_tags hrep n]

theorem publish_tags_tags_frame {goarch : List (String × String)} {group : Bool}
    {sources : List (String × SourceLoc)} :
    ∀ (tagsL : List (String × String)) (reg reg' : Registry) (art0 : Option PubArtifact)
      (artOut : Option PubArtifact),
    publish_tags goarch group sources tagsL reg art0 = .ok (reg', artOut) →
    ∀ n t', (n, t') ∉ tagsL → (reg' n).tags t' = (reg n).tags t' := by
  cases group with
  | true =>
    intro tagsL
    induction tagsL with
    | nil =>
      intro reg reg' art0 artOut h n t' _
      unfold publish_tags at h
      cases h
      rfl
    | cons rt rest ih =>
      intro reg reg' art0 artOut h n t' hnm
      obtain ⟨repo, tag⟩ := rt
      have hnm1 : ¬(n = repo ∧ t' = tag) := by
        rintro ⟨rfl, rfl⟩
        exact hnm (List.mem_cons_self _ _)
      have hnm2 : (n, t') ∉ rest := fun hm => hnm (List.mem_cons_of_mem _ hm)
      unfold publish_tags at h
      rw [if_pos rfl] at h
      cases hpub : publish_grouped goarch sources reg repo tag with
      | error e => rw [hpub] at h; cases h
      | ok out =>
        obtain ⟨reg1, a⟩ := out
        rw [hpub] at h
        dsimp only at h
        exact (ih reg1 reg' _ _ h n t' hnm2).trans
          (publish_grouped_tags_frame hpub n t' hnm1)
  | false =>
    intro tagsL
    induction tagsL with
    | nil =>
      intro reg reg' art0 artOut h n t' _
      unfold publish_tags at h
      cases h
      rfl
    | cons rt rest ih =>
      intro reg reg' art0 artOut h n t' hnm
      obtain ⟨repo, tag⟩ := rt
      have hnm1 : ¬(n = repo ∧ t' = tag) := by
        rintro ⟨rfl, rfl⟩
        exact hnm (List.mem_cons_self _ _)
      have hnm2 : (n, t') ∉ rest := fun hm => hnm (List.mem_cons_of_mem _ hm)
      unfold publish_tags at h
      rw [if_neg (by simp)] at h
      cases sources with
      | nil =>
        dsimp only at h
        cases h
      | cons ps rest2 =>
        cases rest2 with
        | nil =>
          obtain ⟨p, loc⟩ := ps
          dsimp only at h
          cases hpub : publish_single goarch p loc reg repo tag with
          | error e => rw [hpub] at h; cases h
          | ok out =>
            obtain ⟨reg1, a⟩ := out
            rw [hpub] at h
            dsimp only at h
            exact (ih reg1 reg' _ _ h n t' hnm2).trans
              (publish_single_tags_frame hpub n t' hnm1)
        | cons ps2 rest3 =>
          dsimp only at h
          cases h

theorem run_dests_tags_frame {goarch : List (String × String)} {group : Bool}
    {tagsL : List (String × String)} :
    ∀ (perReg : List (RegistryConf × List (String × SourceLoc))) (regs : Regs)
      (art0 : Option PubArtifact),
    ∀ r n t', (n, t') ∉ tagsL →
    (((run_dests goarch group tagsL perReg regs art0).1 r) n).tags t'
      = ((regs r) n).tags t' := by
  intro perReg
  induction perReg with
  | nil =>
    intro regs art0 r n t' _
    rfl
  | cons cs rest ih =>
    intro regs art0 r n t' hnm
    obtain ⟨conf, sources⟩ := cs
    unfold run_dests
    cases hpub : publish_tags goarch group sources tagsL (regs conf.name) none with
    | error e => rfl
    | ok out =>
      obtain ⟨reg1, a⟩ := out
      dsimp only
      rw [ih (updateRegs regs conf.name reg1) _ r n t' hnm]
      unfold updateRegs
      by_cases hr : r = conf.name
      · subst hr
        simp only [if_pos rfl]
        exact publish_tags_tags_frame tagsL (regs conf.name) reg1 none a hpub n t' hnm
      · simp [hr]

theorem get_manifest_persist {a b : Registry} (hman : ManMono a b)
    {repo tag v : String} (htag : (b repo).tags tag = (a repo).tags tag)
    (h : get_manifest a repo tag = some v) : get_manifest b repo tag = some v := by
  unfold get_manifest at h ⊢
  by_cases hr : isDigestRef tag
  · rw [if_pos hr] at h ⊢
    exact hman _ _ _ h
  · rw [if_neg hr] at h ⊢
    cases ht : (a repo).tags tag with
    | none => rw [ht] at h; cases h
    | some dgt =>
      rw [ht] at h
      rw [htag, ht]
      exact hman _ _ _ h

theorem run_dests_untouched {goarch : List (String × String)} {group : Bool}
    {tagsL : List (String × String)} :
    ∀ (perReg : List (RegistryConf × List (String × SourceLoc))) (regs : Regs)
      (art0 : Option PubArtifact) (r : String),
    (∀ cs ∈ perReg, cs.1.name ≠ r) →
    (run_dests goarch group tagsL perReg regs art0).1 r = regs r := by
  intro perReg
  induction perReg with
  | nil =>
    intro regs art0 r _
    rfl
  | cons cs rest ih =>
    intro regs art0 r hne
    obtain ⟨conf, sources⟩ := cs
    unfold run_dests
    cases hpub : publish_tags goarch group sources tagsL (regs conf.name) none with
    | error e => rfl
    | ok out =>
      obtain ⟨reg1, a⟩ := out
      dsimp only
      rw [ih _ _ r fun c hc => hne c (List.mem_cons_of_mem _ hc)]
      unfold updateRegs
      rw [if_neg ?_]
      exact fun he => hne (conf, sources) (List.mem_cons_self _ _) he.symm

theorem registry_sources_fst {conf : RegistryConf} :
    ∀ {wbs : List (String × List SourceLoc)},
    missing_platforms conf wbs = [] →
    (registry_sources conf wbs).map Prod.fst = wbs.map Prod.fst := by
  intro wbs
  induction wbs with
  | nil => intro _; rfl
  | cons pb rest ih =>
    intro h
    unfold missing_platforms at h
    rw [List.map_eq_nil_iff, List.filter_eq_nil_iff] at h
    have hpb : (find_source conf pb.2).isNone ≠ true :=
      h pb (List.mem_cons_self _ _)
    cases hf : find_source conf pb.2 with
    | none => rw [hf] at hpb; simp at hpb
    | some l =>
      unfold registry_sources
      rw [List.filterMap_cons, hf]
      dsimp only [Option.map_some']
      have htail : missing_platforms conf rest = [] := by
        unfold missing_platforms
        rw [List.map_eq_nil_iff, List.filter_eq_nil_iff]
        exact fun x hx => h x (List.mem_cons_of_mem _ hx)
      have := ih htail
      unfold registry_sources at this
      simp only [List.map_cons]
      rw [this]

theorem publish_tags_effects {goarch : List (String × String)}
    {sources : List (String × SourceLoc)} :
    ∀ (tagsL : List (String × String)) (reg reg' : Registry)
      (art0 artOut : Option PubArtifact),
    RegConsistent reg →
    sources_ok_b reg sources = true →
    tagsL.Nodup →
    publish_tags goarch true sources tagsL reg art0 = .ok (reg', artOut) →
    RegConsistent reg' ∧
    ManMono reg reg' ∧
    BlobMono reg reg' ∧
    (∀ n t', (n, t') ∉ tagsL → (reg' n).tags t' = (reg n).tags t') ∧
    (∀ rt ∈ tagsL, ∃ es fam,
      List.Forall₂ (fun ps e => expected_entry reg goarch ps.1 ps.2 = some e) sources es ∧
      common_family es = some fam ∧
      get_manifest reg' rt.1 rt.2 = some (build_list_bytes (list_media_type fam) es) ∧
      (reg' rt.1).manifests (make_digest (build_list_bytes (list_media_type fam) es))
        = some (build_list_bytes (list_media_type fam) es) ∧
      (∀ ps ∈ sources, ∃ b m,
        (reg ps.2.repository).manifests ps.2.digest = some b ∧
        make_digest b = ps.2.digest ∧
        parse_manifest b = some m ∧
        (reg' rt.1).manifests ps.2.digest = some b ∧
        (∀ d ∈ copied_digests m, ((reg' rt.1).blobs d).isSome = true))) ∧
    (∀ n d, (reg' n).blobs d ≠ (reg n).blobs d →
      ∃ ps ∈ sources, ∃ b m,
        (reg ps.2.repository).manifests ps.2.digest = some b ∧
        parse_manifest b = some m ∧ d ∈ copied_digests m) := by
  intro tagsL
  induction tagsL with
  | nil =>
    intro reg reg' art0 artOut hcons hsok _ h
    unfold publish_tags at h
    cases h
    exact ⟨hcons, fun _ _ _ hv => hv, fun _ _ _ hv => hv, fun _ _ _ => rfl,
      fun rt hrt => by simp at hrt, fun n d hne => absurd rfl hne⟩
  | cons rt0 rest ih =>
    intro reg reg' art0 artOut hcons hsok hnd h
    obtain ⟨repo, tag⟩ := rt0
    unfold publish_tags at h
    rw [if_pos rfl] at h
    cases hpub : publish_grouped goarch sources reg repo tag with
    | error e => rw [hpub] at h; cases h
    | ok out =>
      obtain ⟨reg1, a⟩ := out
      rw [hpub] at h
      dsimp only at h
      obtain ⟨c1, mm1, bm1, tf1, ⟨es, fam, hfa, hfam, hart, hget1, hself1⟩, hcont1, hbf1⟩ :=
        publish_grouped_effects hcons hsok hpub
      have hndrest : rest.Nodup := (List.nodup_cons.mp hnd).2
      have hhead : (repo, tag) ∉ rest := (List.nodup_cons.mp hnd).1
      obtain ⟨c2, mm2, bm2, tf2, hrts2, hbf2⟩ :=
        ih reg1 reg' _ _ c1 (sources_ok_mono mm1 hsok) hndrest h
      have mm12 : ManMono reg reg' := fun n d v hv => mm2 n d v (mm1 n d v hv)
      have bm12 : BlobMono reg reg' := fun n d v hv => bm2 n d v (bm1 n d v hv)
      refine ⟨c2, mm12, bm12, ?_, ?_, ?_⟩
      · intro n t' hnm
        have hnm1 : ¬(n = repo ∧ t' = tag) := by
          rintro ⟨rfl, rfl⟩
          exact hnm (List.mem_cons_self _ _)
        have hnm2 : (n, t') ∉ rest := fun hm => hnm (List.mem_cons_of_mem _ hm)
        rw [tf2 n t' hnm2, tf1 n t' hnm1]
      · intro rt hrt
        rcases List.mem_cons.mp hrt with rfl | hmem
        · refine ⟨es, fam, hfa, hfam, ?_, mm2 _ _ _ hself1, ?_⟩
          · exact get_manifest_persist mm2 (tf2 repo tag hhead) hget1
          · intro ps hps
            obtain ⟨b, m, hb, hh, hp, hm, hblobs⟩ := hcont1 ps hps
            refine ⟨b, m, hb, hh, hp, mm2 _ _ _ hm, ?_⟩
            intro d hd
            rcases Option.isSome_iff_exists.mp (hblobs d hd) with ⟨bv, hbv⟩
            rw [bm2 _ _ _ hbv]
            rfl
        · obtain ⟨es2, fam2, hfa2, hfam2, hget2, hself2, hcont2⟩ := hrts2 rt hmem
          refine ⟨es2, fam2, forall2_expected_stable mm1 goarch _ _ hsok hfa2, hfam2,
            hget2, hself2, ?_⟩
          intro ps hps
          obtain ⟨b, m, hb, hh, hp, hm, hblobs⟩ := hcont2 ps hps
          obtain ⟨_, hpx⟩ := Bool.and_eq_true_iff.mp (List.all_eq_true.mp hsok ps hps)
          rcases Option.isSome_iff_exists.mp hpx with ⟨v, hv⟩
          have hv1 : (reg1 ps.2.repository).manifests ps.2.digest = some v := mm1 _ _ _ hv
          rw [hv1] at hb
          cases hb
          exact ⟨b, m, hv, hh, hp, hm, hblobs⟩
      · intro n d hne
        by_cases h2 : (reg' n).blobs d = (reg1 n).blobs d
        · have h1 : (reg1 n).blobs d ≠ (reg n).blobs d := fun he => hne (h2.trans he)
          obtain ⟨_, ps, hps, b, m, hb, hp, hd⟩ := hbf1 n d h1
          exact ⟨ps, hps, b, m, hb, hp, hd⟩
        · obtain ⟨ps, hps, b, m, hb, hp, hd⟩ := hbf2 n d h2
          obtain ⟨_, hpx⟩ := Bool.and_eq_true_iff.mp (List.all_eq_true.mp hsok ps hps)
          rcases Option.isSome_iff_exists.mp hpx with ⟨v, hv⟩
          have hv1 : (reg1 ps.2.repository).manifests ps.2.digest = some v := mm1 _ _ _ hv
          rw [hv1] at hb
          cases hb
          exact ⟨ps, hps, b, m, hv, hp, hd⟩

theorem run_dests_effects {goarch : List (String × String)}
    {tagsL : List (String × String)} (hnd : tagsL.Nodup) :
    ∀ (perReg : List (RegistryConf × List (String × SourceLoc))) (regs : Regs)
      (art0 : Option PubArtifact),
    RegsConsistent regs →
    (perReg.map fun cs => cs.1.name).Nodup →
    (∀ cs ∈ perReg, sources_ok_b (regs cs.1.name) cs.2 = true) →
    ∀ regsOut artOut,
    run_dests goarch true tagsL perReg regs art0 = (regsOut, .ok artOut) →
    RegsConsistent regsOut ∧
    (∀ r, ManMono (regs r) (regsOut r)) ∧
    (∀ cs ∈ perReg, ∀ rt ∈ tagsL, ∃ es fam,
      List.Forall₂ (fun ps e => expected_entry (regs cs.1.name) goarch ps.1 ps.2 = some e)
        cs.2 es ∧
      common_family es = some fam ∧
      get_manifest (regsOut cs.1.name) rt.1 rt.2
        = some (build_list_bytes (list_media_type fam) es) ∧
      ((regsOut cs.1.name) rt.1).manifests
          (make_digest (build_list_bytes (list_media_type fam) es))
        = some (build_list_bytes (list_media_type fam) es) ∧
      (∀ ps ∈ cs.2, ∃ b m,
        ((regs cs.1.name) ps.2.repository).manifests ps.2.digest = some b ∧
        make_digest b = ps.2.digest ∧
        parse_manifest b = some m ∧
        ((regsOut cs.1.name) rt.1).manifests ps.2.digest = some b ∧
        (∀ d ∈ copied_digests m, (((regsOut cs.1.name) rt.1).blobs d).isSome = true))) ∧
    (∀ r n d, ((regsOut r) n).blobs d ≠ ((regs r) n).blobs d →
      ∃ cs ∈ perReg, r = cs.1.name ∧ ∃ ps ∈ cs.2, ∃ b m,
        ((regs cs.1.name) ps.2.repository).manifests ps.2.digest = some b ∧
        parse_manifest b = some m ∧ d ∈ copied_digests m) := by
  intro perReg
  induction perReg with
  | nil =>
    intro regs art0 hcons _ _ regsOut artOut h
    unfold run_dests at h
    cases h
    exact ⟨hcons, fun _ _ _ _ hv => hv, fun cs hcs => by simp at hcs,
      fun r n d hne => absurd rfl hne⟩
  | cons cs0 rest ih =>
    intro regs art0 hcons hnames hsok regsOut artOut h
    obtain ⟨conf, sources⟩ := cs0
    unfold run_dests at h
    cases hpub : publish_tags goarch true sources tagsL (regs conf.name) none with
    | error e => rw [hpub] at h; cases h
    | ok out =>
      obtain ⟨reg1, a⟩ := out
      rw [hpub] at h
      dsimp only at h
      obtain ⟨c1, mm1, bm1, tf1, hrts1, hbf1⟩ :=
        publish_tags_effects tagsL (regs conf.name) reg1 none a (hcons conf.name)
          (hsok (conf, sources) (List.mem_cons_self _ _)) hnd hpub
      have hconftail : ∀ cs ∈ rest, cs.1.name ≠ conf.name := by
        intro cs hcs he
        have hnotin := (List.nodup_cons.mp hnames).1
        exact hnotin (List.mem_map.mpr ⟨cs, hcs, he⟩)
      have hregs1 : ∀ r, r ≠ conf.name →
          updateRegs regs conf.name reg1 r = regs r := by
        intro r hr
        unfold updateRegs
        rw [if_neg hr]
      have hregs1c : updateRegs regs conf.name reg1 conf.name = reg1 := by
        unfold updateRegs
        rw [if_pos rfl]
      have hcons1 : RegsConsistent (updateRegs regs conf.name reg1) := by
        intro r
        by_cases hr : r = conf.name
        · rw [hr, hregs1c]
          exact c1
        · rw [hregs1 r hr]
          exact hcons r
      have hsok1 : ∀ cs ∈ rest,
          sources_ok_b (updateRegs regs conf.name reg1 cs.1.name) cs.2 = true := by
        intro cs hcs
        rw [hregs1 _ (hconftail cs hcs)]
        exact hsok cs (List.mem_cons_of_mem _ hcs)
      obtain ⟨c2, mm2, hrts2, hbf2⟩ :=
        ih (updateRegs regs conf.name reg1) _ hcons1
          (List.nodup_cons.mp hnames).2 hsok1 regsOut artOut h
      have huntouched : regsOut conf.name = reg1 := by
        have := @run_dests_untouched goarch true tagsL rest
          (updateRegs regs conf.name reg1) (art0 <|> a) conf.name hconftail
        rw [h] at this
        dsimp only at this
        rw [this, hregs1c]
      refine ⟨c2, ?_, ?_, ?_⟩
      · intro r
        by_cases hr : r = conf.name
        · subst hr
          rw [huntouched]
          exact mm1
        · intro n d v hv
          have := mm2 r n d v
          rw [hregs1 r hr] at this
          exact this hv
      · intro cs hcs rt hrt
        rcases List.mem_cons.mp hcs with rfl | hmem
        · obtain ⟨es, fam, hfa, hfam, hget, hself, hcont⟩ := hrts1 rt hrt
          rw [huntouched]
          exact ⟨es, fam, hfa, hfam, hget, hself, hcont⟩
        · obtain ⟨es, fam, hfa, hfam, hget, hself, hcont⟩ := hrts2 cs hmem rt hrt
          rw [hregs1 _ (hconftail cs hmem)] at hfa hcont
          exact ⟨es, fam, hfa, hfam, hget, hself, hcont⟩
      · intro r n d hne
        by_cases hr : r = conf.name
        · subst hr
          rw [huntouched] at hne
          obtain ⟨ps, hps, b, m, hb, hp, hd⟩ := hbf1 n d hne
          exact ⟨(conf, sources), List.mem_cons_self _ _, rfl, ps, hps, b, m, hb, hp, hd⟩
        · have hne1 : ((regsOut r) n).blobs d
              ≠ ((updateRegs regs conf.name reg1 r) n).blobs d := by
            rw [hregs1 r hr]
            exact hne
          obtain ⟨cs, hcs, hrname, ps, hps, b, m, hb, hp, hd⟩ := hbf2 r n d hne1
          rw [hregs1 _ (hconftail cs hcs)] at hb
          exact ⟨cs, List.mem_cons_of_mem _ hcs, hrname, ps, hps, b, m, hb, hp, hd⟩

theorem run_grouped_effects (inp : AggInput) (regs : Regs)
    (hcons : RegsConsistent regs)
    (hgroup : inp.group = true)
    (hnd : inp.finalTags.Nodup)
    (hnames : (inp.registries.map RegistryConf.name).Nodup)
    (hsok : all_sources_ok_b inp regs = true)
    (hrun : run_ok inp regs = true) :
    RegsConsistent ((run_group_manifests inp regs).1) ∧
    (∀ conf ∈ inp.registries,
      missing_platforms conf inp.workerBuilds = [] ∧
      (registry_sources conf inp.workerBuilds).map Prod.fst
        = inp.workerBuilds.map Prod.fst ∧
      ∀ rt ∈ inp.finalTags, ∃ es fam,
        List.Forall₂
          (fun ps e => expected_entry (regs conf.name) inp.goarch ps.1 ps.2 = some e)
          (registry_sources conf inp.workerBuilds) es ∧
        common_family es = some fam ∧
        get_manifest ((run_group_manifests inp regs).1 conf.name) rt.1 rt.2
          = some (build_list_bytes (list_media_type fam) es) ∧
        (((run_group_manifests inp regs).1 conf.name) rt.1).manifests
            (make_digest (build_list_bytes (list_media_type fam) es))
          = some (build_list_bytes (list_media_type fam) es) ∧
        (∀ ps ∈ registry_sources conf inp.workerBuilds, ∃ b m,
          ((regs conf.name) ps.2.repository).manifests ps.2.digest = some b ∧
          make_digest b = ps.2.digest ∧
          parse_manifest b = some m ∧
          (((run_group_manifests inp regs).1 conf.name) rt.1).manifests ps.2.digest
            = some b ∧
          (∀ d ∈ copied_digests m,
            ((((run_group_manifests inp regs).1 conf.name) rt.1).blobs d).isSome
              = true))) ∧
    (∀ r n d,
      (((run_group_manifests inp regs).1 r) n).blobs d ≠ ((regs r) n).blobs d →
      ∃ conf ∈ inp.registries, r = conf.name ∧
        ∃ ps ∈ registry_sources conf inp.workerBuilds, ∃ b m,
          ((regs conf.name) ps.2.repository).manifests ps.2.digest = some b ∧
          parse_manifest b = some m ∧ d ∈ copied_digests m) := by
  by_cases hw : inp.workerBuilds.isEmpty = true
  · unfold run_ok run_group_manifests at hrun
    rw [if_pos hw] at hrun
    simp at hrun
  · cases hres : resolve_sources inp.registries inp.workerBuilds with
    | error e =>
      unfold run_ok run_group_manifests at hrun
      rw [if_neg hw, hres] at hrun
      simp at hrun
    | ok perReg =>
      have hambneg : ¬(inp.group = false ∧ 1 < inp.workerBuilds.length) := by
        rintro ⟨hgf, _⟩
        rw [hgroup] at hgf
        cases hgf
      have heq : run_group_manifests inp regs
          = run_dests inp.goarch true inp.finalTags perReg regs none := by
        unfold run_group_manifests
        rw [if_neg hw, hres]
        dsimp only
        rw [if_neg hambneg, hgroup]
      unfold run_ok at hrun
      rw [heq] at hrun ⊢
      rcases hrd : run_dests inp.goarch true inp.finalTags perReg regs none
        with ⟨regsOut, res⟩
      cases res with
      | error e =>
        rw [hrd] at hrun
        exact Bool.noConfusion hrun
      | ok artOut =>
        obtain ⟨hout, hmiss⟩ := resolve_sources_ok_spec inp.workerBuilds
          inp.registries perReg hres
        have hnames' : (perReg.map fun cs => cs.1.name).Nodup := by
          rw [hout, List.map_map]
          exact hnames
        have hsok' : ∀ cs ∈ perReg, sources_ok_b (regs cs.1.name) cs.2 = true := by
          intro cs hcs
          rw [hout] at hcs
          rcases List.mem_map.mp hcs with ⟨conf, hconf, rfl⟩
          exact List.all_eq_true.mp hsok conf hconf
        obtain ⟨c2, mm2, hper, hbf⟩ := run_dests_effects hnd perReg regs none hcons
          hnames' hsok' regsOut artOut hrd
        refine ⟨c2, ?_, ?_⟩
        · intro conf hconf
          have hcsmem : (conf, registry_sources conf inp.workerBuilds) ∈ perReg := by
            rw [hout]
            exact List.mem_map.mpr ⟨conf, hconf, rfl⟩
          refine ⟨hmiss conf hconf, registry_sources_fst (hmiss conf hconf), ?_⟩
          intro rt hrt
          exact hper (conf, registry_sources conf inp.workerBuilds) hcsmem rt hrt
        · intro r n d hne
          obtain ⟨cs, hcs, hrname, rest⟩ := hbf r n d hne
          rw [hout] at hcs
          rcases List.mem_map.mp hcs with ⟨conf, hconf, rfl⟩
          exact ⟨conf, hconf, hrname, rest⟩

/-! ### Sorting, families, and functionality -/

theorem mem_insertOn {α : Type} (key : α → String) (x z : α) :
    ∀ l : List α, z ∈ insertOn key x l → z = x ∨ z ∈ l := by
  intro l
  induction l with
  | nil =>
    intro h
    unfold insertOn at h
    rcases List.mem_singleton.mp h with rfl
    exact Or.inl rfl
  | cons y ys ih =>
    intro h
    unfold insertOn at h
    by_cases hle : key x ≤ key y
    · rw [if_pos hle] at h
      rcases List.mem_cons.mp h with rfl | h'
      · exact Or.inl rfl
      · exact Or.inr h'
    · rw [if_neg hle] at h
      rcases List.mem_cons.mp h with rfl | h'
      · exact Or.inr (List.mem_cons_self _ _)
      · rcases ih h' with rfl | h''
        · exact Or.inl rfl
        · exact Or.inr (List.mem_cons_of_mem _ h'')

theorem insertOn_pairwise {α : Type} (key : α → String) (x : α) :
    ∀ {l : List α}, l.Pairwise (fun a b => key a ≤ key b) →
    (insertOn key x l).Pairwise (fun a b => key a ≤ key b) := by
  intro l
  induction l with
  | nil =>
    intro _
    simp [insertOn]
  | cons y ys ih =>
    intro hl
    obtain ⟨hy, hys⟩ := List.pairwise_cons.mp hl
    unfold insertOn
    by_cases hle : key x ≤ key y
    · rw [if_pos hle]
      refine List.pairwise_cons.mpr ⟨?_, hl⟩
      intro z hz
      rcases List.mem_cons.mp hz with rfl | hz'
      · exact hle
      · exact le_trans hle (hy z hz')
    · rw [if_neg hle]
      refine List.pairwise_cons.mpr ⟨?_, ih hys⟩
      intro z hz
      rcases mem_insertOn key x z ys hz with rfl | hz'
      · exact le_of_not_le hle
      · exact hy z hz'

theorem sortOn_sorted {α : Type} (key : α → String) :
    ∀ l : List α, (sortOn key l).Pairwise (fun a b => key a ≤ key b) := by
  intro l
  induction l with
  | nil => exact List.Pairwise.nil
  | cons x xs ih => exact insertOn_pairwise key x ih

theorem insertOn_perm {α : Type} (key : α → String) (x : α) :
    ∀ l : List α, (insertOn key x l).Perm (x :: l) := by
  intro l
  induction l with
  | nil => exact List.Perm.refl _
  | cons y ys ih =>
    unfold insertOn
    by_cases hle : key x ≤ key y
    · rw [if_pos hle]
    · rw [if_neg hle]
      exact (ih.cons y).trans (List.Perm.swap x y ys)

theorem sortOn_perm {α : Type} (key : α → String) :
    ∀ l : List α, (sortOn key l).Perm l := by
  intro l
  induction l with
  | nil => exact List.Perm.refl _
  | cons x xs ih => exact (insertOn_perm key x (sortOn key xs)).trans (ih.cons x)

theorem common_family_mem {es : List ListEntry} {fam : Family}
    (h : common_family es = some fam) :
    ∀ e ∈ es, manifest_family e.mediaType = some fam := by
  cases es with
  | nil => cases h
  | cons e0 rest =>
    unfold common_family at h
    dsimp only at h
    cases hf : manifest_family e0.mediaType with
    | none => rw [hf] at h; cases h
    | some f =>
      rw [hf] at h
      dsimp only at h
      split at h
      · cases h
        rename_i hall
        intro e he
        rcases List.mem_cons.mp he with rfl | he'
        · exact hf
        · exact of_decide_eq_true (List.all_eq_true.mp hall e he')
      · cases h

theorem forall2_functional {α β : Type} (f g : α → Option β) :
    ∀ (l : List α) (es1 es2 : List β),
    (∀ x ∈ l, f x = g x) →
    List.Forall₂ (fun a b => f a = some b) l es1 →
    List.Forall₂ (fun a b => g a = some b) l es2 →
    es1 = es2 := by
  intro l
  induction l with
  | nil =>
    intro es1 es2 _ h1 h2
    cases h1
    cases h2
    rfl
  | cons x xs ih =>
    intro es1 es2 hfg h1 h2
    cases h1 with
    | cons hx1 hrest1 =>
      cases h2 with
      | cons hx2 hrest2 =>
        rename_i y1 l1 y2 l2
        have : some y1 = some y2 := by
          rw [← hx1, hfg x (List.mem_cons_self _ _), hx2]
        cases this
        rw [ih l1 l2 (fun z hz => hfg z (List.mem_cons_of_mem _ hz)) hrest1 hrest2]

theorem expected_entry_congr {r1 r2 : Registry}
    (goarch : List (String × String)) (p : String) (loc : SourceLoc)
    (h : (r1 loc.repository).manifests loc.digest
      = (r2 loc.repository).manifests loc.digest) :
    expected_entry r1 goarch p loc = expected_entry r2 goarch p loc := by
  unfold expected_entry
  rw [h]

theorem sources_agree_spec {inp : AggInput} {regs1 regs2 : Regs}
    (h : sources_agree_b inp regs1 regs2 = true) :
    ∀ conf ∈ inp.registries, ∀ ps ∈ registry_sources conf inp.workerBuilds,
    ((regs1 conf.name) ps.2.repository).manifests ps.2.digest
      = ((regs2 conf.name) ps.2.repository).manifests ps.2.digest := by
  intro conf hconf ps hps
  have h1 := List.all_eq_true.mp h conf hconf
  have h2 := List.all_eq_true.mp h1 ps hps
  exact eq_of_beq h2

theorem digest_not_copied_spec {inp : AggInput} {regs : Regs} {dg : String}
    (hnc : digest_not_copied_b inp regs dg = true) :
    ∀ conf ∈ inp.registries, ∀ ps ∈ registry_sources conf inp.workerBuilds,
    ∀ b m, ((regs conf.name) ps.2.repository).manifests ps.2.digest = some b →
    parse_manifest b = some m → dg ∉ copied_digests m := by
  intro conf hconf ps hps b m hb hm
  have h1 := List.all_eq_true.mp hnc conf hconf
  have h2 := List.all_eq_true.mp h1 ps hps
  rw [hb] at h2
  dsimp only at h2
  rw [hm] at h2
  exact of_decide_eq_true h2

theorem wReg_consistent : RegConsistent wReg := by
  unfold wReg
  exact add_manifest_consistent
    (add_manifest_consistent
      (add_blob_consistent
        (add_blob_consistent
          (add_blob_consistent
            (add_blob_consistent regConsistent_empty "src" "l-p1")
            "src" "c-p1")
          "src" "l-p2")
        "src" "c-p2")
      "src" (make_digest (wBytes "p1")) (wBytes "p1"))
    "src" (make_digest (wBytes "p2")) (wBytes "p2")

theorem wRegs_consistent : RegsConsistent wRegs := by
  intro r
  unfold wRegs updateRegs
  by_cases hr : r = "reg"
  · rw [if_pos hr]
    exact wReg_consistent
  · rw [if_neg hr]
    exact regConsistent_empty

theorem wRegs_other_consistent : RegsConsistent (updateRegs wRegs "other" wReg) := by
  intro r
  unfold updateRegs
  by_cases hr : r = "other"
  · rw [if_pos hr]
    exact wReg_consistent
  · rw [if_neg hr]
    exact wRegs_consistent r

/-! ## The claims -/

/-- C10: in every reachable state of a registry, for every repository, each
key of the manifest store is the digest of the bytes stored under it, each
key of the blob store is the digest of the blob stored under it, every tag
maps to a digest present in the manifest store, and a manifest PUT whose
body is not valid JSON is rejected with status 400 leaving the repository
state unchanged. -/
theorem c10_registry_state_invariant (reg : Registry) (h : Reach reg) :
    RegConsistent reg ∧
      ∀ name ref body, isValidJson body = false →
        put_manifest reg name ref body = (some 400, reg) :=
  ⟨reach_consistent h, fun name ref body hv => put_manifest_invalid reg name ref body hv⟩

theorem c10_registry_state_invariant_witness :
    RegConsistent (add_blob emptyRegistry "worker-build" "layer-1").1 ∧
      ∀ name ref body, isValidJson body = false →
        put_manifest (add_blob emptyRegistry "worker-build" "layer-1").1 name ref body
          = (some 400, (add_blob emptyRegistry "worker-build" "layer-1").1) :=
  c10_registry_state_invariant _ (Reach.addBlob "worker-build" "layer-1" Reach.init)

/-- C8: with no worker builds at all, the run fails with
`NoWorkerBuildsError` before any write to any destination (the final
registry states equal the initial ones). -/
theorem c8_no_worker_builds (inp : AggInput) (regs : Regs)
    (h : inp.workerBuilds = []) :
    run_group_manifests inp regs = (regs, .error .noWorkerBuilds) := by
  simp [run_group_manifests, h]

theorem c8_no_worker_builds_witness :
    run_group_manifests
        ⟨[], [⟨"registry.example.com", "v2"⟩], [("namespace/httpd", "latest")], true,
          [("x86_64", "amd64")]⟩
        (fun _ => emptyRegistry)
      = (fun _ => emptyRegistry, .error .noWorkerBuilds) :=
  c8_no_worker_builds _ _ rfl

/-- C7: with grouping disabled and more than one platform supplied (each
with usable Source Locations, so that completeness validation passes), the
run fails with `AmbiguousUngroupedSourceError` before publishing anything
(the final registry states equal the initial ones). -/
theorem c7_ambiguous_ungrouped (inp : AggInput) (regs : Regs)
    (hg : inp.group = false) (hn : 1 < inp.workerBuilds.length)
    (hr : sources_resolve inp = true) :
    run_group_manifests inp regs = (regs, .error .ambiguousUngroupedSource) := by
  have hne : inp.workerBuilds.isEmpty = false := by
    cases hwb : inp.workerBuilds with
    | nil => rw [hwb] at hn; simp at hn
    | cons a l => simp
  unfold run_group_manifests
  rw [hne]
  simp only [Bool.false_eq_true, if_false]
  unfold sources_resolve at hr
  cases hres : resolve_sources inp.registries inp.workerBuilds with
  | error e => rw [hres] at hr; simp at hr
  | ok perReg => simp [hg, hn]

theorem c7_ambiguous_ungrouped_witness :
    run_group_manifests
        ⟨[("p1", [⟨"reg", "r", "t1", make_digest "m1", "v2"⟩]),
          ("p2", [⟨"reg", "r", "t2", make_digest "m2", "v2"⟩])],
          [⟨"reg", "v2"⟩], [("r", "latest")], false, [("p1", "amd64"), ("p2", "powerpc")]⟩
        (fun _ => emptyRegistry)
      = (fun _ => emptyRegistry, .error .ambiguousUngroupedSource) :=
  c7_ambiguous_ungrouped _ _ rfl (by decide) (by decide)

/-- C6: a manifest fetched by digest re-hashes to exactly the requested
digest — the client fetch returns bytes only when `digestOf(bytes) = ref`,
and a stored payload whose hash differs from the digest it is requested
under makes the fetch fail with `DigestMismatchError`. -/
theorem c6_digest_round_trip :
    (∀ reg repo ref bytes, client_get_manifest reg repo ref = .ok bytes →
      isDigestRef ref = true → make_digest bytes = ref) ∧
    (∀ reg repo ref bytes, get_manifest reg repo ref = some bytes →
      isDigestRef ref = true → make_digest bytes ≠ ref →
      client_get_manifest reg repo ref = .error (.digestMismatch repo ref)) := by
  constructor
  · intro reg repo ref bytes h href
    unfold client_get_manifest at h
    cases hg : get_manifest reg repo ref with
    | none => rw [hg] at h; cases h
    | some b =>
      rw [hg] at h
      dsimp only at h
      split at h
      · cases h
      · rename_i hcond
        cases h
        push_neg at hcond
        exact hcond href
  · intro reg repo ref bytes hg href hne
    unfold client_get_manifest
    rw [hg]
    dsimp only
    rw [if_pos ⟨href, hne⟩]

theorem c6_digest_round_trip_witness :
    (make_digest "manifest-a" = make_digest "manifest-a" ∧
      client_get_manifest
        (setManifest emptyRegistry "repo" (make_digest "manifest-b") "manifest-a")
        "repo" (make_digest "manifest-b")
        = .error (.digestMismatch "repo" (make_digest "manifest-b"))) := by
  constructor
  · exact c6_digest_round_trip.1
      (add_manifest emptyRegistry "repo" (make_digest "manifest-a") "manifest-a").1
      "repo" (make_digest "manifest-a") "manifest-a" (by rfl) (by decide)
  · exact c6_digest_round_trip.2
      (setManifest emptyRegistry "repo" (make_digest "manifest-b") "manifest-a")
      "repo" (make_digest "manifest-b") "manifest-a" (by decide) (by decide) (by decide)

/-- C1: when any required platform lacks a usable Source Location for some
destination registry, the run fails with `MissingPlatformsError` naming the
registry and the missing platform set (each named platform indeed has no
Source Location there), and nothing is published anywhere — in particular
that registry gains no new manifest-list tag. -/
theorem c1_missing_platforms_all_or_nothing (inp : AggInput) (regs : Regs)
    (hW : inp.workerBuilds ≠ [])
    (hM : ∃ conf ∈ inp.registries, missing_platforms conf inp.workerBuilds ≠ []) :
    ∃ conf ∈ inp.registries,
      missing_platforms conf inp.workerBuilds ≠ [] ∧
      (∀ p ∈ missing_platforms conf inp.workerBuilds,
        ∃ pb ∈ inp.workerBuilds, pb.1 = p ∧ find_source conf pb.2 = none) ∧
      run_group_manifests inp regs
        = (regs, .error (.missingPlatforms conf.name
            (missing_platforms conf inp.workerBuilds))) := by
  rcases resolve_sources_error_of_missing inp.workerBuilds inp.registries hM with
    ⟨conf, hconf, hmiss, herr⟩
  refine ⟨conf, hconf, hmiss, fun p hp => mem_missing_platforms hp, ?_⟩
  have hne : inp.workerBuilds.isEmpty = false := by
    cases hwb : inp.workerBuilds with
    | nil => exact absurd hwb hW
    | cons a l => simp
  unfold run_group_manifests
  rw [hne, herr]
  simp

/-- C9: no tag outside the supplied final (repository, tag) pairs is ever
written by a run, whatever its outcome — so a floating tag (disjoint from
the final tags, the policy boundary enforced by the caller) still resolves
exactly as before the run and in particular is never made to point at a
manifest list. -/
theorem c9_floating_tags_never_grouped (inp : AggInput) (regs : Regs)
    (n t : String) (h : (n, t) ∉ inp.finalTags) :
    ∀ r, (((run_group_manifests inp regs).1 r) n).tags t = ((regs r) n).tags t := by
  intro r
  unfold run_group_manifests
  by_cases hw : inp.workerBuilds.isEmpty = true
  · rw [if_pos hw]
  · rw [if_neg hw]
    cases hres : resolve_sources inp.registries inp.workerBuilds with
    | error e => rfl
    | ok perReg =>
      dsimp only
      by_cases hamb : inp.group = false ∧ 1 < inp.workerBuilds.length
      · rw [if_pos hamb]
      · rw [if_neg hamb]
        exact run_dests_tags_frame perReg regs none r n t h

theorem c9_floating_tags_never_grouped_witness :
    (((run_group_manifests
        ⟨[("p1", [⟨"reg", "r", "t1", make_digest "m1", "v2"⟩])],
          [⟨"reg", "v2"⟩], [("r", "2.4")], true, [("p1", "amd64")]⟩
        (fun _ => emptyRegistry)).1 "reg") "r").tags "floating"
      = (((fun _ => emptyRegistry : Regs) "reg") "r").tags "floating" :=
  c9_floating_tags_never_grouped _ _ "r" "floating" (by decide) "reg"

/-- C4: after a successful grouped run, for every destination registry and
every final (repository, tag): the tag resolves to the canonically
serialized manifest list whose entries correspond one-to-one (in
worker-build order, one per required platform) to the resolved sources —
each entry carrying the source manifest's media type, the source manifest's
digest, its byte size and the resolved `{os := linux, architecture}`
platform; all entry media types belong to one image-spec family whose list
media type heads the list (never mixed); and the destination repository
holds each platform's manifest addressable by its own digest together with
its config blob and every non-foreign layer blob. -/
theorem c4_grouped_publication (inp : AggInput) (regs : Regs)
    (hcons : RegsConsistent regs) (hgroup : inp.group = true)
    (hnd : inp.finalTags.Nodup)
    (hnames : (inp.registries.map RegistryConf.name).Nodup)
    (hsok : all_sources_ok_b inp regs = true)
    (hrun : run_ok inp regs = true) :
    ∀ conf ∈ inp.registries,
      (registry_sources conf inp.workerBuilds).map Prod.fst
        = inp.workerBuilds.map Prod.fst ∧
      ∀ rt ∈ inp.finalTags, ∃ es fam,
        List.Forall₂ (fun ps e =>
          expected_entry (regs conf.name) inp.goarch ps.1 ps.2 = some e)
          (registry_sources conf inp.workerBuilds) es ∧
        common_family es = some fam ∧
        (∀ e ∈ es, manifest_family e.mediaType = some fam) ∧
        get_manifest ((run_group_manifests inp regs).1 conf.name) rt.1 rt.2
          = some (build_list_bytes (list_media_type fam) es) ∧
        (((run_group_manifests inp regs).1 conf.name) rt.1).manifests
            (make_digest (build_list_bytes (list_media_type fam) es))
          = some (build_list_bytes (list_media_type fam) es) ∧
        (∀ ps ∈ registry_sources conf inp.workerBuilds, ∃ b m,
          ((regs conf.name) ps.2.repository).manifests ps.2.digest = some b ∧
          make_digest b = ps.2.digest ∧
          parse_manifest b = some m ∧
          (((run_group_manifests inp regs).1 conf.name) rt.1).manifests ps.2.digest
            = some b ∧
          (∀ d ∈ copied_digests m,
            ((((run_group_manifests inp regs).1 conf.name) rt.1).blobs d).isSome
              = true)) := by
  intro conf hconf
  obtain ⟨_, hper, _⟩ := run_grouped_effects inp regs hcons hgroup hnd hnames hsok hrun
  obtain ⟨hmiss, hfst, hrts⟩ := hper conf hconf
  refine ⟨hfst, ?_⟩
  intro rt hrt
  obtain ⟨es, fam, hfa, hfam, hget, hself, hcont⟩ := hrts rt hrt
  exact ⟨es, fam, hfa, hfam, common_family_mem hfam, hget, hself, hcont⟩

set_option maxRecDepth 1000000 in
theorem c4_grouped_publication_witness :
    (registry_sources ⟨"reg", "v2"⟩ wInp.workerBuilds).map Prod.fst
      = wInp.workerBuilds.map Prod.fst ∧
    ∃ es fam,
      List.Forall₂ (fun ps e =>
        expected_entry (wRegs "reg") wInp.goarch ps.1 ps.2 = some e)
        (registry_sources ⟨"reg", "v2"⟩ wInp.workerBuilds) es ∧
      common_family es = some fam ∧
      (∀ e ∈ es, manifest_family e.mediaType = some fam) ∧
      get_manifest ((run_group_manifests wInp wRegs).1 "reg") "r" "t1"
        = some (build_list_bytes (list_media_type fam) es) ∧
      (((run_group_manifests wInp wRegs).1 "reg") "r").manifests
          (make_digest (build_list_bytes (list_media_type fam) es))
        = some (build_list_bytes (list_media_type fam) es) ∧
      (∀ ps ∈ registry_sources ⟨"reg", "v2"⟩ wInp.workerBuilds, ∃ b m,
        ((wRegs "reg") ps.2.repository).manifests ps.2.digest = some b ∧
        make_digest b = ps.2.digest ∧
        parse_manifest b = some m ∧
        (((run_group_manifests wInp wRegs).1 "reg") "r").manifests ps.2.digest
          = some b ∧
        (∀ d ∈ copied_digests m,
          ((((run_group_manifests wInp wRegs).1 "reg") "r").blobs d).isSome
            = true)) :=
  ⟨(c4_grouped_publication wInp wRegs wRegs_consistent rfl (by decide) (by decide)
      (by decide) (by decide) ⟨"reg", "v2"⟩ (by decide)).1,
   (c4_grouped_publication wInp wRegs wRegs_consistent rfl (by decide) (by decide)
      (by decide) (by decide) ⟨"reg", "v2"⟩ (by decide)).2 ("r", "t1") (by decide)⟩

/-- C3: every manifest list the aggregator publishes has its per-platform
entries sorted ascending by architecture name — each published tag resolves
to the canonical serialization of the architecture-sorted permutation of
the collected entries, whatever order the platforms were supplied in. -/
theorem c3_entries_sorted_by_architecture (inp : AggInput) (regs : Regs)
    (hcons : RegsConsistent regs) (hgroup : inp.group = true)
    (hnd : inp.finalTags.Nodup)
    (hnames : (inp.registries.map RegistryConf.name).Nodup)
    (hsok : all_sources_ok_b inp regs = true)
    (hrun : run_ok inp regs = true) :
    ∀ conf ∈ inp.registries, ∀ rt ∈ inp.finalTags,
      ∃ lt es,
        get_manifest ((run_group_manifests inp regs).1 conf.name) rt.1 rt.2
          = some (dumpsCanonical (manifest_list_json lt
              (sortOn ListEntry.architecture es))) ∧
        (sortOn ListEntry.architecture es).Perm es ∧
        ((sortOn ListEntry.architecture es).map ListEntry.architecture).Pairwise
          (· ≤ ·) := by
  intro conf hconf rt hrt
  obtain ⟨_, hper, _⟩ := run_grouped_effects inp regs hcons hgroup hnd hnames hsok hrun
  obtain ⟨_, _, hrts⟩ := hper conf hconf
  obtain ⟨es, fam, _, _, hget, _, _⟩ := hrts rt hrt
  exact ⟨list_media_type fam, es, hget, sortOn_perm _ _,
    List.pairwise_map.mpr (sortOn_sorted _ es)⟩

set_option maxRecDepth 1000000 in
theorem c3_entries_sorted_by_architecture_witness :
    ∃ lt es,
      get_manifest ((run_group_manifests wInp wRegs).1 "reg") "r" "t1"
        = some (dumpsCanonical (manifest_list_json lt
            (sortOn ListEntry.architecture es))) ∧
      (sortOn ListEntry.architecture es).Perm es ∧
      ((sortOn ListEntry.architecture es).map ListEntry.architecture).Pairwise
        (· ≤ ·) :=
  c3_entries_sorted_by_architecture wInp wRegs wRegs_consistent rfl (by decide)
    (by decide) (by decide) (by decide) ⟨"reg", "v2"⟩ (by decide) ("r", "t1")
    (by decide)

/-- C2: two successful grouped runs over identical Source Locations (states
holding byte-identical source manifests at every resolved location) and the
same destination configuration publish byte-identical manifest lists under
every final tag — and hence the same digest. -/
theorem c2_idempotent_byte_identical (inp : AggInput) (regs1 regs2 : Regs)
    (hc1 : RegsConsistent regs1) (hc2 : RegsConsistent regs2)
    (hgroup : inp.group = true) (hnd : inp.finalTags.Nodup)
    (hnames : (inp.registries.map RegistryConf.name).Nodup)
    (hs1 : all_sources_ok_b inp regs1 = true)
    (hs2 : all_sources_ok_b inp regs2 = true)
    (hr1 : run_ok inp regs1 = true) (hr2 : run_ok inp regs2 = true)
    (hagree : sources_agree_b inp regs1 regs2 = true) :
    ∀ conf ∈ inp.registries, ∀ rt ∈ inp.finalTags,
      ∃ b, get_manifest ((run_group_manifests inp regs1).1 conf.name) rt.1 rt.2
          = some b ∧
        get_manifest ((run_group_manifests inp regs2).1 conf.name) rt.1 rt.2
          = some b := by
  intro conf hconf rt hrt
  obtain ⟨_, hper1, _⟩ := run_grouped_effects inp regs1 hc1 hgroup hnd hnames hs1 hr1
  obtain ⟨_, hper2, _⟩ := run_grouped_effects inp regs2 hc2 hgroup hnd hnames hs2 hr2
  obtain ⟨_, _, hrts1⟩ := hper1 conf hconf
  obtain ⟨_, _, hrts2⟩ := hper2 conf hconf
  obtain ⟨es1, fam1, hfa1, hfam1, hget1, _, _⟩ := hrts1 rt hrt
  obtain ⟨es2, fam2, hfa2, hfam2, hget2, _, _⟩ := hrts2 rt hrt
  have hes : es1 = es2 := by
    refine forall2_functional
      (fun ps => expected_entry (regs1 conf.name) inp.goarch ps.1 ps.2)
      (fun ps => expected_entry (regs2 conf.name) inp.goarch ps.1 ps.2)
      (registry_sources conf inp.workerBuilds) es1 es2 ?_ hfa1 hfa2
    intro ps hps
    exact expected_entry_congr inp.goarch ps.1 ps.2
      (sources_agree_spec hagree conf hconf ps hps)
  subst hes
  have hfameq : fam1 = fam2 := by
    rw [hfam1] at hfam2
    exact Option.some.inj hfam2
  subst hfameq
  exact ⟨build_list_bytes (list_media_type fam1) es1, hget1, hget2⟩

set_option maxRecDepth 1000000 in
theorem c2_idempotent_byte_identical_witness :
    ∃ b, get_manifest ((run_group_manifests wInp wRegs).1 "reg") "r" "t1"
        = some b ∧
      get_manifest ((run_group_manifests wInp
          (updateRegs wRegs "other" wReg)).1 "reg") "r" "t1"
        = some b :=
  c2_idempotent_byte_identical wInp wRegs (updateRegs wRegs "other" wReg)
    wRegs_consistent wRegs_other_consistent rfl (by decide) (by decide) (by decide)
    (by decide) (by decide) (by decide) (by decide) ⟨"reg", "v2"⟩ (by decide)
    ("r", "t1") (by decide)

/-- C5: a foreign (non-distributable) layer of a source manifest is never
copied — it is excluded from the digests the aggregator replicates, and
after a successful run (which foreign layers do not prevent) every blob
store of every registry holds exactly what it held before at that layer's
digest; in particular a destination repository that did not contain it
still does not. -/
theorem c5_foreign_layer_excluded (inp : AggInput) (regs : Regs)
    (hcons : RegsConsistent regs) (hgroup : inp.group = true)
    (hnd : inp.finalTags.Nodup)
    (hnames : (inp.registries.map RegistryConf.name).Nodup)
    (hsok : all_sources_ok_b inp regs = true)
    (hrun : run_ok inp regs = true)
    (conf : RegistryConf) (hconf : conf ∈ inp.registries)
    (ps : String × SourceLoc) (hps : ps ∈ registry_sources conf inp.workerBuilds)
    (b : String) (m : Manifest)
    (hb : ((regs conf.name) ps.2.repository).manifests ps.2.digest = some b)
    (hm : parse_manifest b = some m)
    (l : LayerRef) (hl : l ∈ m.layers) (hforeign : is_foreign_layer l = true)
    (hnc : digest_not_copied_b inp regs l.digest = true) :
    l.digest ∉ copied_digests m ∧
    ∀ r n, (((run_group_manifests inp regs).1 r) n).blobs l.digest
      = ((regs r) n).blobs l.digest := by
  refine ⟨digest_not_copied_spec hnc conf hconf ps hps b m hb hm, ?_⟩
  intro r n
  by_contra hne
  obtain ⟨_, _, hbf⟩ := run_grouped_effects inp regs hcons hgroup hnd hnames hsok hrun
  obtain ⟨conf', hconf', _, ps', hps', b', m', hb', hm', hd'⟩ := hbf r n l.digest hne
  exact absurd hd' (digest_not_copied_spec hnc conf' hconf' ps' hps' b' m' hb' hm')

set_option maxRecDepth 1000000 in
theorem c5_foreign_layer_excluded_witness :
    (LayerRef.digest ⟨"application/vnd.docker.image.rootfs.foreign.diff.tar.gzip",
        make_digest "f-p1", ["u"]⟩) ∉ copied_digests (wParsed "p1") ∧
    ∀ r n, (((run_group_manifests wInp wRegs).1 r) n).blobs
        (LayerRef.digest ⟨"application/vnd.docker.image.rootfs.foreign.diff.tar.gzip",
          make_digest "f-p1", ["u"]⟩)
      = ((wRegs r) n).blobs
        (LayerRef.digest ⟨"application/vnd.docker.image.rootfs.foreign.diff.tar.gzip",
          make_digest "f-p1", ["u"]⟩) :=
  c5_foreign_layer_excluded wInp wRegs wRegs_consistent rfl (by decide) (by decide)
    (by decide) (by decide) ⟨"reg", "v2"⟩ (by decide) ("p1", wLoc "p1") (by decide)
    (wBytes "p1") (wParsed "p1") (by decide) (by decide)
    ⟨"application/vnd.docker.image.rootfs.foreign.diff.tar.gzip",
      make_digest "f-p1", ["u"]⟩ (by decide) (by decide) (by decide)

theorem c1_missing_platforms_witness :
    ∃ conf ∈ ([⟨"reg", "v2"⟩] : List RegistryConf),
      missing_platforms conf
          [("p1", [⟨"reg", "r", "t1", make_digest "m1", "v2"⟩]), ("p2", [])] ≠ [] ∧
      (∀ p ∈ missing_platforms conf
          [("p1", [⟨"reg", "r", "t1", make_digest "m1", "v2"⟩]), ("p2", [])],
        ∃ pb ∈ [("p1", [(⟨"reg", "r", "t1", make_digest "m1", "v2"⟩ : SourceLoc)]), ("p2", [])],
          pb.1 = p ∧ find_source conf pb.2 = none) ∧
      run_group_manifests
          ⟨[("p1", [⟨"reg", "r", "t1", make_digest "m1", "v2"⟩]), ("p2", [])],
            [⟨"reg", "v2"⟩], [("r", "latest")], true, [("p1", "amd64"), ("p2", "powerpc")]⟩
          (fun _ => emptyRegistry)
        = (fun _ => emptyRegistry, .error (.missingPlatforms conf.name
            (missing_platforms conf
              [("p1", [⟨"reg", "r", "t1", make_digest "m1", "v2"⟩]), ("p2", [])]))) :=
  c1_missing_platforms_all_or_nothing
    ⟨[("p1", [⟨"reg", "r", "t1", make_digest "m1", "v2"⟩]), ("p2", [])],
      [⟨"reg", "v2"⟩], [("r", "latest")], true, [("p1", "amd64"), ("p2", "powerpc")]⟩
    (fun _ => emptyRegistry) (by decide) (by decide)

end AtomicReactor
